import Mathlib

/-!
# Verification of the whisper-money statement-import engine

Shallow embedding of the import/dedup/commit/undo pipeline of the
whisper-money repository (React + Supabase).  Sources embedded here:

* `src/components/transactions/EditTransactionDialog.tsx` (Alipay import:
  `normalizeDateTime`, `toTsKey`, `formatAmountLoose`, the `toInsert`
  builder, legacy fingerprints, and the commit/undo protocol),
* `src/components/transactions/ImportBocDialog.tsx` (BOC import),
* `src/components/transactions/ImportAlipayDialog.tsx` (standalone Alipay
  dialog with its toast report),
* the WeChat dialog (`ImportWechatDialog`, first variant) and `src/lib/wechat.ts`,
* `src/lib/boc.ts` (`parseBocPdf`, `bocAmountToNumber`) and the shared
  positional-reconstruction loop of `src/lib/cmb.ts`,
* `decodeBestEffort` / `tryDecode` from `src/pages/Index.tsx`.

Modelling conventions:

* Money is modelled exactly in micro-yuan: `Money := ℤ`, one yuan =
  `1000000`.  Statement cells are decimal numerals with at most a few
  fraction digits; the JS engine holds them in doubles, the embedding
  keeps them exact (fraction digits beyond six, which never occur in
  statements, are truncated by the numeral parser).
* `Number(s)` on a string is modelled by `parseDecimal`; the NaN result
  of a non-numeric string is modelled as `none` and coerced to `0`
  exactly where the source coerces it (`isNaN(n) ? 0 : n`).
* The Supabase store is modelled as a `Store` value: the owner's
  transaction rows, the resolved target account's balance, and a
  fresh-id counter.  All queries in the source are scoped by
  `user_id`/`account_id`; the model is scoped to the single importing
  owner and the resolved account, so those columns are not repeated on
  every row.  `category_id`/`account_id` assignment and the undo-time
  category cleanup touch neither the ledger dedup state nor the balance
  and are outside the modelled state.
* Store responses to inserts are an input (`resp`): `resp k` is the
  error, if any, that the store reports for the k-th inserted chunk.
  Read queries are modelled as answering from the current `Store`.
* Core `String` functions that do not kernel-reduce are re-implemented
  on character lists (`trimStr`, `takeStr`, ...) with the same
  semantics as the JS functions they model.
-/

/-! ## String and JS-primitive helpers -/

/-- Money in micro-yuan (1 yuan = 1000000), exact. -/
abbrev Money := ℤ

/-- The micro-yuan scale. -/
def moneyScale : ℤ := 1000000

/-- JS whitespace test for `trim` / `\s`. -/
def isWs (c : Char) : Bool := c.isWhitespace

/-- JS `String.trim`. -/
def trimStr (s : String) : String :=
  String.mk (((s.toList.dropWhile isWs).reverse.dropWhile isWs).reverse)

/-- JS `String.slice(0, n)`. -/
def takeStr (s : String) (n : Nat) : String := String.mk (s.toList.take n)

/-- Drop the last `n` characters. -/
def dropRightStr (s : String) (n : Nat) : String :=
  String.mk (s.toList.take (s.toList.length - n))

/-- Last `n` characters. -/
def takeRightStr (s : String) (n : Nat) : String :=
  String.mk (s.toList.drop (s.toList.length - n))

/-- Suffix test. -/
def endsWithStr (s suffi : String) : Bool :=
  takeRightStr s suffi.toList.length = suffi

/-- Substring test (JS `String.includes`), for a nonempty pattern. -/
def containsStr (s pat : String) : Bool :=
  go s.toList pat.toList
where
  isPrefixOfChars : List Char → List Char → Bool
    | [], _ => true
    | _ :: _, [] => false
    | p :: ps, c :: cs => p = c && isPrefixOfChars ps cs
  go : List Char → List Char → Bool
    | cs, pat =>
      if isPrefixOfChars pat cs then true
      else match cs with
        | [] => false
        | _ :: rest => go rest pat

/-- One decimal digit as a natural number. -/
def digitVal (c : Char) : Nat := c.toNat - '0'.toNat

/-- Digits of a numeral, most significant first, as a natural number. -/
def natOfDigits (ds : List Char) : Nat :=
  ds.foldl (fun acc c => acc * 10 + digitVal c) 0

/-- Split a leading run of ASCII digits off a character list. -/
def spanDigits : List Char → List Char × List Char
  | [] => ([], [])
  | c :: cs =>
    if c.isDigit then
      let p := spanDigits cs
      (c :: p.1, p.2)
    else ([], c :: cs)

/-- Value in micro-yuan of a run of fraction digits (at most six kept). -/
def fracValue (ds : List Char) : Nat :=
  let kept := ds.take 6
  natOfDigits kept * 10 ^ (6 - kept.length)

/-- `Number(s)` for a decimal-numeral string:
`[+-]? digits* [. digits*]` with at least one digit; the empty or
all-whitespace string is `0` (JS `Number('') = 0`); anything else is JS
`NaN`, modelled as `none`.  Exponents never occur in statement cells. -/
def parseDecimal (s : String) : Option Money :=
  let t := trimStr s
  if t = "" then some 0
  else
    let cs := t.toList
    let signAndRest : ℤ × List Char :=
      match cs with
      | '-' :: r => (-1, r)
      | '+' :: r => (1, r)
      | r => (1, r)
    let sign := signAndRest.1
    let ip := spanDigits signAndRest.2
    match ip.2 with
    | [] =>
      if ip.1 = [] then none
      else some (sign * ((natOfDigits ip.1 : ℤ) * moneyScale))
    | '.' :: cs3 =>
      let fp := spanDigits cs3
      if fp.2 ≠ [] then none
      else if ip.1 = [] ∧ fp.1 = [] then none
      else some (sign * ((natOfDigits ip.1 : ℤ) * moneyScale + (fracValue fp.1 : ℤ)))
    | _ => none

/-- JS `Math.round(q * 100)` for an amount `q` given in micro-yuan:
round half toward positive infinity, result in cents. -/
def jsRoundCents (m : Money) : ℤ := Int.fdiv (m + 5000) 10000

/-- Remove every occurrence of the characters in `bad` (models chained
`String.replace(/x/g, '')`). -/
def removeChars (bad : List Char) (s : String) : String :=
  String.mk (s.toList.filter (fun c => ¬ bad.contains c))

/-- Keep only ASCII digits (models `replace(/[^\d]/g, '')`). -/
def digitsOnly (s : String) : String :=
  String.mk (s.toList.filter Char.isDigit)

/-- Replace the first occurrence of character `c` by `r`
(JS `String.replace('T', ' ')` replaces only the first occurrence). -/
def replaceFirstChar (c r : Char) (s : String) : String :=
  String.mk (go s.toList)
where
  go : List Char → List Char
    | [] => []
    | x :: xs => if x = c then r :: xs else x :: go xs

/-- Decimal rendering of a natural number (kernel-reducible). -/
def natToStr (n : Nat) : String := String.mk (go n 20 [])
where
  go : Nat → Nat → List Char → List Char
    | n, 0, acc => Char.ofNat (n % 10 + '0'.toNat) :: acc
    | n, fuel + 1, acc =>
      let d := Char.ofNat (n % 10 + '0'.toNat)
      if n < 10 then d :: acc else go (n / 10) fuel (d :: acc)

/-- Decimal rendering of an integer. -/
def intToStr (i : ℤ) : String :=
  (if i < 0 then "-" else "") ++ natToStr i.natAbs

/-- Render a nonnegative number of cents as `d.dd`. -/
def centsToFixed2 (c : Nat) : String :=
  natToStr (c / 100) ++ "." ++
    (if c % 100 < 10 then "0" ++ natToStr (c % 100) else natToStr (c % 100))

/-- JS `Math.abs(n).toFixed(2)` for an amount in micro-yuan. -/
def absToFixed2 (m : Money) : String := centsToFixed2 (jsRoundCents |m|).toNat

/-- `moneyToFixed2` from `ImportBocDialog.tsx` / `ImportCmbDialog.tsx`:
`(n < 0 ? '-' : '') + Math.abs(n).toFixed(2)`. -/
def moneyToFixed2 (n : Money) : String :=
  (if n < 0 then "-" else "") ++ absToFixed2 n

/-- `formatAmountLoose` from `EditTransactionDialog.tsx`: two-decimal
rendering of `|n|` with a trailing `.00` (or a single trailing `0`)
stripped, prefixed with the sign. -/
def formatAmountLoose (n : Money) : String :=
  let s := absToFixed2 n
  let s :=
    if endsWithStr s ".00" then dropRightStr s 3
    else if endsWithStr s "0" then dropRightStr s 1
    else s
  (if n < 0 then "-" else "") ++ s

/-- JS number-to-string coercion for the template-string hashes
(`${r.amount}`): integers print without a decimal point, terminating
decimals print with trailing zeros trimmed. -/
def jsNumToString (m : Money) : String :=
  let sign := if m < 0 then "-" else ""
  let a := m.natAbs
  if a % 1000000 = 0 then sign ++ natToStr (a / 1000000)
  else
    let k := if a % 10 ≠ 0 then 6
      else if a % 100 ≠ 0 then 5
      else if a % 1000 ≠ 0 then 4
      else if a % 10000 ≠ 0 then 3
      else if a % 100000 ≠ 0 then 2
      else 1
    let scaled := a / 10 ^ (6 - k)
    sign ++ natToStr (scaled / 10 ^ k) ++ "." ++
      (let fs := natToStr (scaled % 10 ^ k)
       String.mk (List.replicate (k - fs.toList.length) '0') ++ fs)

/-- First-occurrence-preserving dedup (JS `Array.from(new Set(l))`). -/
def jsSetOfList (l : List String) : List String :=
  l.foldl (fun acc h => if acc.contains h then acc else acc ++ [h]) []

example : parseDecimal "12.34" = some 12340000 := by decide
example : parseDecimal "N/A" = none := by decide
example : parseDecimal "" = some 0 := by decide
example : parseDecimal "-1,2" = none := by decide
example : jsNumToString 10500000 = "10.5" := by decide
example : jsNumToString (-10000000) = "-10" := by decide
example : jsNumToString 10050000 = "10.05" := by decide
example : formatAmountLoose 10000000 = "10" := by decide
example : formatAmountLoose (-10500000) = "-10.5" := by decide
example : moneyToFixed2 (-10500000) = "-10.50" := by decide
example : jsRoundCents 10500000 = 1050 := by decide
example : containsStr "hello 支付宝 x" "支付宝" = true := by decide
example : containsStr "hello" "支付宝" = false := by decide
example : digitsOnly "2024-01-02 03:04:05" = "20240102030405" := by decide

/-! ## Date/time normalization (`normalizeDateTime` in the Alipay/WeChat dialogs) -/

/-- Consume exactly `n` ASCII digits. -/
def eatDigits : Nat → List Char → Option (List Char × List Char)
  | 0, cs => some ([], cs)
  | _ + 1, [] => none
  | n + 1, c :: cs =>
    if c.isDigit then
      (eatDigits n cs).map (fun p => (c :: p.1, p.2))
    else none

/-- Consume one expected character. -/
def eatChar (c : Char) : List Char → Option (List Char)
  | [] => none
  | x :: xs => if x = c then some xs else none

/-- Consume one-or-more whitespace characters (`[\s]+`). -/
def eatWs1 : List Char → Option (List Char)
  | [] => none
  | c :: cs => if isWs c then some (cs.dropWhile isWs) else none

/-- Match the anchored prefix `\d{4}-\d{2}-\d{2}`, returning the date text
and the rest. -/
def matchYmd (cs : List Char) : Option (String × List Char) := do
  let (y, r1) ← eatDigits 4 cs
  let r2 ← eatChar '-' r1
  let (mo, r3) ← eatDigits 2 r2
  let r4 ← eatChar '-' r3
  let (d, r5) ← eatDigits 2 r4
  pure (String.mk (y ++ '-' :: mo ++ '-' :: d), r5)

/-- Match `\d{2}:\d{2}:\d{2}` as a prefix. -/
def matchHms (cs : List Char) : Option String := do
  let (h, r1) ← eatDigits 2 cs
  let r2 ← eatChar ':' r1
  let (mi, r3) ← eatDigits 2 r2
  let r4 ← eatChar ':' r3
  let (se, _) ← eatDigits 2 r4
  pure (String.mk (h ++ ':' :: mi ++ ':' :: se))

/-- Match `\d{2}:\d{2}` as a prefix. -/
def matchHm (cs : List Char) : Option String := do
  let (h, r1) ← eatDigits 2 cs
  let r2 ← eatChar ':' r1
  let (mi, _) ← eatDigits 2 r2
  pure (String.mk (h ++ ':' :: mi))

/-- `^(\d{4}-\d{2}-\d{2})(?:[\s]+(\d{2}:\d{2}:\d{2}))` on `v`. -/
def matchDateTimeFull (v : String) : Option (String × String) := do
  let (d, r) ← matchYmd v.toList
  let r2 ← eatWs1 r
  let t ← matchHms r2
  pure (d, t)

/-- `^(\d{4}-\d{2}-\d{2})(?:[\s]+(\d{2}:\d{2}))` on `v`. -/
def matchDateTimeShort (v : String) : Option (String × String) := do
  let (d, r) ← matchYmd v.toList
  let r2 ← eatWs1 r
  let t ← matchHm r2
  pure (d, t)

/-- `normalizeDateTime` from `EditTransactionDialog.tsx` /
`ImportAlipayDialog.tsx`: empty input gives `''`; otherwise `/`s become
`-`s and the first `'T'` a space, then a full or minute-precision
date-time prefix is normalized to `YYYY-MM-DD HH:mm:ss`; otherwise the
first ten characters of the original input with midnight appended. -/
def normalizeDateTime (s : String) : String :=
  if s = "" then ""
  else
    let v := replaceFirstChar 'T' ' '
      (String.mk ((trimStr s).toList.map (fun c => if c = '/' then '-' else c)))
    match matchDateTimeFull v with
    | some (d, t) => d ++ " " ++ t
    | none =>
      match matchDateTimeShort v with
      | some (d, t) => d ++ " " ++ t ++ ":00"
      | none => takeStr s 10 ++ " 00:00:00"

/-- The WeChat-dialog variant of `normalizeDateTime` (`ImportWechatDialog`,
first variant): identical except that the final fallback slices the
transformed string `v`, not the original `s`. -/
def normalizeDateTimeWx (s : String) : String :=
  if s = "" then ""
  else
    let v := replaceFirstChar 'T' ' '
      (String.mk ((trimStr s).toList.map (fun c => if c = '/' then '-' else c)))
    match matchDateTimeFull v with
    | some (d, t) => d ++ " " ++ t
    | none =>
      match matchDateTimeShort v with
      | some (d, t) => d ++ " " ++ t ++ ":00"
      | none => takeStr v 10 ++ " 00:00:00"

/-- `toTsKey` from `EditTransactionDialog.tsx`: `replace(/[^\d]/g, '')`. -/
def toTsKey (dt : String) : String := digitsOnly dt

/-- `toYmd` from `ImportBocDialog.tsx`: digits only, first eight. -/
def toYmd (s : String) : String := takeStr (digitsOnly s) 8

example : normalizeDateTime "2024/01/02 03:04:05" = "2024-01-02 03:04:05" := by decide
example : normalizeDateTime "2024-01-02 03:04" = "2024-01-02 03:04:00" := by decide
example : normalizeDateTime "2024-01-02" = "2024-01-02 00:00:00" := by decide
example : normalizeDateTime "" = "" := by decide
example : toYmd "2024-01-02" = "20240102" := by decide

/-! ## The ledger store model and the shared commit/undo protocol

The commit protocol below is the code from `EditTransactionDialog.tsx`
lines 994-1106 and, identically, `ImportBocDialog.tsx` lines 146-274:
query existing rows by new+legacy fingerprints, query all rows for the
`(date, |amount| in cents, description)` fallback, filter, insert in
chunks of 500 collecting ids, apply the net delta to the account
balance when nonzero, and expose the compensating undo action. -/

/-- Direction of a normalized record. -/
inductive TxKind
  | income
  | expense
  | transfer
deriving DecidableEq

/-- A row as assembled into `toInsert` by the Alipay (EditTransactionDialog)
and BOC dialogs: signed amount, dates, description and the stored
current-generation fingerprint (`unique_hash`). -/
structure InsRow where
  amount : Money
  kind : TxKind
  date : String
  occurredAt : String
  description : String
  source : String
  uniqueHash : String
deriving DecidableEq

/-- A persisted transaction row owned by the importing user.  WeChat- and
standalone-Alipay-dialog rows are inserted without a fingerprint, hence
the optional `uniqueHash`. -/
structure LedgerRow where
  id : Nat
  amount : Money
  kind : TxKind
  date : String
  description : String
  source : String
  uniqueHash : Option String
deriving DecidableEq

/-- The owner-scoped part of the external store: transaction rows, the
resolved target account's balance, and the store's id supply. -/
structure Store where
  ledger : List LedgerRow
  balance : Money
  nextId : Nat
deriving DecidableEq

/-- Errors reported by the ledger store on insert. -/
inductive StoreErr
  | uniqueViolation
  | ioFailure
deriving DecidableEq

/-- Store operations observable at the interface boundary. -/
inductive StoreOp
  | queryHashes (fps : List String)
  | queryFields
  | insertChunk (n : Nat)
  | readBalance
  | writeBalance (v : Money)
  | deleteRows (ids : List Nat)
deriving DecidableEq

/-- Whether an operation touches the account's balance row. -/
def touchesBalance : StoreOp → Bool
  | .readBalance => true
  | .writeBalance _ => true
  | _ => false

/-- Ledger row created by the store for an inserted `InsRow` under a fresh
id (all inserted columns are kept; `unique_hash` is present). -/
def toLedgerRow (id : Nat) (r : InsRow) : LedgerRow :=
  { id := id, amount := r.amount, kind := r.kind, date := r.date,
    description := r.description, source := r.source,
    uniqueHash := some r.uniqueHash }

/-- Rows of a chunk with consecutive fresh ids starting at `n0`. -/
def rowsWithIds (n0 : Nat) : List InsRow → List LedgerRow
  | [] => []
  | r :: rs => toLedgerRow n0 r :: rowsWithIds (n0 + 1) rs

/-- `len` consecutive ids starting at `n0`. -/
def idsFrom (n0 : Nat) : Nat → List Nat
  | 0 => []
  | len + 1 => n0 :: idsFrom (n0 + 1) len

/-- Chunking helper: split off chunks with `cap` remaining places in the
current chunk `acc` (structural formulation of `slice(i, i + 500)`). -/
def chunksGo (cap : Nat) (acc : List α) : List α → List (List α)
  | [] => [acc]
  | x :: rest =>
    match cap with
    | 0 => acc :: chunksGo 499 [x] rest
    | c + 1 => chunksGo c (acc ++ [x]) rest

/-- Slices of at most 500 elements in order (the insert loop
`for (let i = 0; i < rows.length; i += 500) rows.slice(i, i + 500)`). -/
def chunksOf500 : List α → List (List α)
  | [] => []
  | x :: rest => chunksGo 499 [x] rest

/-- Successful outcome of the chunked insert loop. -/
structure InsOk where
  ids : List Nat
  rows : List LedgerRow
  store : Store
  ops : List StoreOp
deriving DecidableEq

/-- Failing outcome of the chunked insert loop: the store's error is
thrown; chunks inserted before the failure remain. -/
structure InsFail where
  err : StoreErr
  store : Store
  ops : List StoreOp
deriving DecidableEq

/-- The chunked insert loop: each chunk is sent to the store; `resp k`
is the store's reported error for the k-th chunk (`none` = success).
On an error the loop throws (`if (insErr) throw insErr`); on success the
returned ids are collected. -/
def insertChunks (resp : Nat → Option StoreErr) :
    List (List InsRow) → Nat → Store → List Nat → List LedgerRow → List StoreOp →
    Except InsFail InsOk
  | [], _, s, ids, rws, ops => .ok ⟨ids, rws, s, ops⟩
  | seg :: rest, k, s, ids, rws, ops =>
    match resp k with
    | some e => .error ⟨e, s, ops ++ [.insertChunk seg.length]⟩
    | none =>
      let newRows := rowsWithIds s.nextId seg
      insertChunks resp rest (k + 1)
        { ledger := s.ledger ++ newRows, balance := s.balance,
          nextId := s.nextId + seg.length }
        (ids ++ idsFrom s.nextId seg.length) (rws ++ newRows)
        (ops ++ [.insertChunk seg.length])

/-- The `(date, |amount| in cents, description)` signature of an insert
candidate: `${r.date.split(' ')[0]}|${Math.round(Math.abs(r.amount)*100)}|${r.description}`. -/
def fieldSigIns (r : InsRow) : String :=
  String.mk (r.date.toList.takeWhile (fun c => c ≠ ' ')) ++ "|" ++
    intToStr (jsRoundCents |r.amount|) ++ "|" ++ r.description

/-- The same signature computed over an existing ledger row. -/
def fieldSigLedger (r : LedgerRow) : String :=
  String.mk (r.date.toList.takeWhile (fun c => c ≠ ' ')) ++ "|" ++
    intToStr (jsRoundCents |r.amount|) ++ "|" ++ r.description

/-- Hashes of the owner's rows whose `unique_hash` is in the queried set
(`select unique_hash ... in ('unique_hash', fps)`; rows with a NULL hash
never match). -/
def existedHashSet (s : Store) (fps : List String) : List String :=
  (s.ledger.filter (fun row =>
    match row.uniqueHash with
    | some h => fps.contains h
    | none => false)).filterMap (fun row => row.uniqueHash)

/-- Outcome of one commit run. -/
inductive CommitResult
  /-- `toInsert` was empty: toast `没有可导入的记录` and return. -/
  | nothingToImport (store : Store) (ops : List StoreOp)
  /-- every candidate matched an existing row: toast `没有可导入的新记录`
  and return before any insert. -/
  | allDuplicates (store : Store) (ops : List StoreOp)
  /-- a chunk insert threw a store error. -/
  | failed (e : StoreErr) (store : Store) (ops : List StoreOp)
  /-- rows committed; the captured `insertedIds`/`delta` feed the undo. -/
  | ok (committed : List LedgerRow) (insertedIds : List Nat) (delta : Money)
      (store : Store) (ops : List StoreOp)
deriving DecidableEq

/-- Store state after a commit run. -/
def CommitResult.state : CommitResult → Store
  | .nothingToImport s _ => s
  | .allDuplicates s _ => s
  | .failed _ s _ => s
  | .ok _ _ _ s _ => s

/-- Rows committed by a run (empty unless the run reached the insert and
succeeded). -/
def CommitResult.committedRows : CommitResult → List LedgerRow
  | .ok c _ _ _ _ => c
  | _ => []

/-- Error thrown by a run, if any. -/
def CommitResult.thrown : CommitResult → Option StoreErr
  | .failed e _ _ => some e
  | _ => none

/-- Operations performed by a run. -/
def CommitResult.opsOf : CommitResult → List StoreOp
  | .nothingToImport _ o => o
  | .allDuplicates _ o => o
  | .failed _ _ o => o
  | .ok _ _ _ _ o => o

/-- The shared commit protocol (`EditTransactionDialog.tsx` 994-1072,
`ImportBocDialog.tsx` 146-214), acting on a prepared `toInsert` batch and
its precomputed legacy-generation fingerprints:

1. query existing hashes among `new ∪ legacy` fingerprints,
2. query all of the owner's rows for the field-combination fallback,
3. drop every candidate matching either check,
4. insert the survivors in chunks of 500, collecting ids,
5. read-modify-write the account balance when the net delta is nonzero. -/
def commitQueryFps (toInsert : List InsRow) (legacyFps : List String) : List String :=
  jsSetOfList (toInsert.map (fun r => r.uniqueHash) ++ legacyFps)

/-- The survivor filter of the commit protocol: drop a candidate matching
an existing row by queried fingerprint or by the field combination. -/
def commitFiltered (toInsert : List InsRow) (legacyFps : List String) (s : Store) :
    List InsRow :=
  toInsert.filter (fun r =>
    !((existedHashSet s (commitQueryFps toInsert legacyFps)).contains r.uniqueHash) &&
    !((s.ledger.map fieldSigLedger).contains (fieldSigIns r)))

def commitPhase (resp : Nat → Option StoreErr) (toInsert : List InsRow)
    (legacyFps : List String) (s : Store) : CommitResult :=
  if toInsert = [] then .nothingToImport s []
  else
    let queryFps := commitQueryFps toInsert legacyFps
    let ops0 : List StoreOp := [.queryHashes queryFps, .queryFields]
    let filtered := commitFiltered toInsert legacyFps s
    if filtered = [] then .allDuplicates s ops0
    else
      match insertChunks resp (chunksOf500 filtered) 0 s [] [] [] with
      | .error f => .failed f.err f.store (ops0 ++ f.ops)
      | .ok insOk =>
        let delta := (filtered.map (fun r => r.amount)).sum
        if delta ≠ 0 then
          let current := insOk.store.balance
          .ok insOk.rows insOk.ids delta
            { insOk.store with balance := current + delta }
            (ops0 ++ insOk.ops ++ [.readBalance, .writeBalance (current + delta)])
        else
          .ok insOk.rows insOk.ids delta insOk.store (ops0 ++ insOk.ops)

/-- All-success store behaviour for inserts. -/
def respOk : Nat → Option StoreErr := fun _ => none

/-- The compensating action captured at commit time (the `撤回` button of
both dialogs): delete the committed rows by id, then reverse the balance
delta when it was nonzero (read-modify-write again).  The category
cleanup and one-shot guard touch neither ledger rows nor the balance. -/
def undoImport (insertedIds : List Nat) (delta : Money) (s : Store) :
    Store × List StoreOp :=
  let delStep :=
    if insertedIds = [] then (s, ([] : List StoreOp))
    else ({ s with ledger := s.ledger.filter (fun r => !(insertedIds.contains r.id)) },
          [StoreOp.deleteRows insertedIds])
  let s1 := delStep.1
  if delta ≠ 0 then
    let current := s1.balance
    ({ s1 with balance := current - delta },
      delStep.2 ++ [.readBalance, .writeBalance (current - delta)])
  else (s1, delStep.2)

/-! ## Provider record types and `toInsert` builders -/

/-- JS `a || b` on strings (empty string is falsy). -/
def jsOrS (a b : String) : String := if a = "" then b else a

/-- Join with a separator (`Array.join`). -/
def joinParts (sep : String) : List String → String
  | [] => ""
  | x :: xs => xs.foldl (fun acc b => acc ++ sep ++ b) x

/-- `(o ?? '')` then keep only truthy values (`[a, b].filter(Boolean)`). -/
def optTruthy (o : Option String) : Option String :=
  match o with
  | some s => if s = "" then none else some s
  | none => none

/-- A raw Alipay CSV record (`AlipayRecordRaw` in `src/lib/alipay.ts`);
field names are the pinyin/ASCII rendering of the Chinese headers
交易时间/交易分类/交易对方/对方账号/商品说明/收支/金额/收付款方式/交易状态/交易订单号/商家订单号/备注. -/
structure AlipayRecordRaw where
  time : String
  category : String
  counterparty : String
  accountCell : String
  product : String
  inOut : String
  amountCell : String
  payMethod : String
  status : String
  tradeId : String
  merchantId : String
  note : String
deriving DecidableEq

/-- Direction of an Alipay record:
`rec['收/支'] === '收入' ? 'income' : rec['收/支'] === '支出' ? 'expense' : 'transfer'`. -/
def alipayTxKind (inOut : String) : TxKind :=
  if inOut = "收入" then .income else if inOut = "支出" then .expense else .transfer

/-- The current-generation fingerprint computed and stored by the
Edit-dialog Alipay path (`EditTransactionDialog.tsx` lines 961-970):
timestamp digits concatenated with the loosely rendered signed amount
(`formatAmountLoose`), no balance component. -/
def alipayStoredFp (today : String) (rec : AlipayRecordRaw) : String :=
  let occurredAt := normalizeDateTime rec.time
  let dateStr := if occurredAt ≠ "" then takeStr occurredAt 10 else today
  let tsKey := toTsKey (if occurredAt ≠ "" then occurredAt else dateStr ++ " 00:00:00")
  let amount := (parseDecimal rec.amountCell).getD 0
  tsKey ++ formatAmountLoose
    (if alipayTxKind rec.inOut = TxKind.income then amount else -amount)

/-- The `toInsert` builder of the Alipay import in
`EditTransactionDialog.tsx` (lines 955-987): skip transfers, normalize
the timestamp, parse the amount (`Number(rec['金额'] || 0)`; a NaN cell
is modelled as 0, see the module comment), assemble the description, and
drop in-batch fingerprint collisions (first occurrence wins).  `today`
models `format(new Date(), 'yyyy-MM-dd')`. -/
def alipayToInsertGo (today : String) :
    List AlipayRecordRaw → List String → List InsRow
  | [], _ => []
  | rec :: rest, uniq =>
    let kind := alipayTxKind rec.inOut
    if kind = .transfer then alipayToInsertGo today rest uniq
    else
      let occurredAt := normalizeDateTime rec.time
      let dateStr := if occurredAt ≠ "" then takeStr occurredAt 10 else today
      let amount := (parseDecimal rec.amountCell).getD 0
      let desc := jsOrS rec.product rec.counterparty
      let signed := if kind = .income then amount else -amount
      let fingerprint := alipayStoredFp today rec
      if uniq.contains fingerprint then alipayToInsertGo today rest uniq
      else
        { amount := signed, kind := kind, date := dateStr ++ " 00:00:00",
          occurredAt := occurredAt, description := desc, source := "alipay",
          uniqueHash := fingerprint } :: alipayToInsertGo today rest (uniq ++ [fingerprint])

/-- `toInsert` for the Edit-dialog Alipay import. -/
def alipayToInsert (today : String) (recs : List AlipayRecordRaw) : List InsRow :=
  alipayToInsertGo today recs []

/-- Legacy-generation fingerprints of the Alipay batch
(`EditTransactionDialog.tsx` lines 996-1007):
`date|signed-cents|description|tradeId|merchantId`, transfers excluded. -/
def alipayLegacyFps (today : String) (recs : List AlipayRecordRaw) : List String :=
  recs.filterMap (fun rec =>
    let kind := alipayTxKind rec.inOut
    if kind = .transfer then none
    else
      let amt := (parseDecimal rec.amountCell).getD 0
      let signed := if kind = .income then amt else -amt
      let d := normalizeDateTime rec.time
      let dStr := if d ≠ "" then takeStr d 10 else today
      let desc := jsOrS rec.product rec.counterparty
      some (dStr ++ "|" ++ intToStr (jsRoundCents signed) ++ "|" ++ desc ++ "|" ++
        rec.tradeId ++ "|" ++ rec.merchantId))

/-- A raw BOC PDF record (`BocRecordRaw` in `src/lib/boc.ts`): 日期 plus
optional 币种/借方金额/贷方金额/金额/余额/摘要/对方信息. -/
structure BocRecordRaw where
  dateCell : String
  currency : Option String
  debitCell : Option String
  creditCell : Option String
  amountCell : Option String
  balanceCell : Option String
  memoCell : Option String
  peerCell : Option String
deriving DecidableEq

/-- `bocAmountToNumber` from `src/lib/boc.ts`: falsy input is 0; commas
and currency signs are stripped; a NaN parse is 0. -/
def bocAmountToNumber (o : Option String) : Money :=
  match o with
  | none => 0
  | some s => if s = "" then 0 else (parseDecimal (removeChars [',', '¥'] s)).getD 0

/-- Unsigned amount and direction of a BOC record
(`ImportBocDialog.tsx` lines 100-109): credit populated means income,
debit populated means expense, otherwise the sign of the combined 金额. -/
def bocAmountKind (rec : BocRecordRaw) : Money × TxKind :=
  let debit := bocAmountToNumber rec.debitCell
  let credit := bocAmountToNumber rec.creditCell
  if credit > 0 then (credit, .income)
  else if debit > 0 then (debit, .expense)
  else
    let v := bocAmountToNumber rec.amountCell
    (|v|, if v ≥ 0 then .income else .expense)

/-- Description of a BOC record: `[摘要, 对方信息].filter(Boolean).join(' - ')`. -/
def bocDescription (rec : BocRecordRaw) : String :=
  joinParts " - " ([rec.memoCell, rec.peerCell].filterMap optTruthy)

/-- The fingerprint computed and stored by the BOC path
(`ImportBocDialog.tsx` lines 118-125): date digits plus the two-decimal
signed amount plus the two-decimal balance when the 余额 cell is
present, and the legacy `date|cents|description` string otherwise. -/
def bocStoredFp (rec : BocRecordRaw) : String :=
  let ak := bocAmountKind rec
  let amt := ak.1
  let kind := ak.2
  let dateStr := rec.dateCell
  let description := bocDescription rec
  let ymd := toYmd dateStr
  let balanceRaw := rec.balanceCell.getD ""
  let hasBalance := trimStr balanceRaw ≠ ""
  let balanceNum := if hasBalance then bocAmountToNumber (some balanceRaw) else 0
  let signed := if kind = TxKind.income then amt else -amt
  if hasBalance then ymd ++ moneyToFixed2 signed ++ moneyToFixed2 balanceNum
  else dateStr ++ "|" ++ intToStr (jsRoundCents |amt|) ++ "|" ++ description

/-- The `toInsert` builder of `ImportBocDialog.tsx` (lines 98-141):
zero-amount records are dropped (`if (!amt) continue`); the stored
fingerprint is `YYYYMMDD + signed-2dp + balance-2dp` when the 余额 cell
is present and the legacy `date|cents|description` form otherwise;
in-batch fingerprint collisions are dropped. -/
def bocToInsertGo : List BocRecordRaw → List String → List InsRow
  | [], _ => []
  | rec :: rest, uniq =>
    let ak := bocAmountKind rec
    let amt := ak.1
    let kind := ak.2
    if amt = 0 then bocToInsertGo rest uniq
    else
      let dateStr := rec.dateCell
      let description := bocDescription rec
      let signed := if kind = .income then amt else -amt
      let fingerprint := bocStoredFp rec
      if uniq.contains fingerprint then bocToInsertGo rest uniq
      else
        { amount := signed, kind := kind, date := dateStr ++ " 00:00:00",
          occurredAt := dateStr ++ " 00:00:00", description := description,
          source := "boc", uniqueHash := fingerprint } :: bocToInsertGo rest (uniq ++ [fingerprint])

/-- `toInsert` for the BOC import. -/
def bocToInsert (recs : List BocRecordRaw) : List InsRow := bocToInsertGo recs []

/-- Legacy fingerprints of the BOC batch (`ImportBocDialog.tsx` lines
148-158), computed for every record: `date|cents|description`. -/
def bocLegacyFps (recs : List BocRecordRaw) : List String :=
  recs.map (fun rec =>
    let d := bocAmountToNumber rec.creditCell
    let c := bocAmountToNumber rec.debitCell
    let amt :=
      if d > 0 then d
      else if c > 0 then c
      else |bocAmountToNumber rec.amountCell|
    rec.dateCell ++ "|" ++ intToStr (jsRoundCents |amt|) ++ "|" ++ bocDescription rec)

/-- The Edit-dialog Alipay import: builder plus the shared commit
protocol. -/
def editAlipayImport (resp : Nat → Option StoreErr) (today : String)
    (recs : List AlipayRecordRaw) (s : Store) : CommitResult :=
  commitPhase resp (alipayToInsert today recs) (alipayLegacyFps today recs) s

/-- The BOC import: builder plus the shared commit protocol. -/
def bocImport (resp : Nat → Option StoreErr) (recs : List BocRecordRaw)
    (s : Store) : CommitResult :=
  commitPhase resp (bocToInsert recs) (bocLegacyFps recs) s

/-! ## WeChat dialog and standalone Alipay dialog (rows without fingerprints) -/

/-- A raw WeChat record (`WechatRecordRaw` in `src/lib/wechat.ts`):
交易时间/交易类型/交易对方/商品/收支/金额(元)/支付方式/当前状态/交易单号/商户单号/备注. -/
structure WechatRecordRaw where
  time : String
  txTypeCell : String
  counterparty : String
  product : String
  inOut : String
  amountCell : String
  payMethod : String
  status : String
  tradeId : String
  merchantId : String
  note : String
deriving DecidableEq

/-- `mapWechatTypeToTransaction` from `src/lib/wechat.ts`. -/
def mapWechatTypeToTransaction (inOut : String) : TxKind :=
  if inOut = "收入" then .income else if inOut = "支出" then .expense else .transfer

/-- `wechatAmountToNumber` from `src/lib/wechat.ts` (lines 95-100): strip
`¥` and commas, trim, `Number`; a NaN parse is coerced to 0. -/
def wechatAmountToNumber (amount : String) : Money :=
  (parseDecimal (removeChars ['¥', ','] amount)).getD 0

/-- A row inserted by the WeChat dialog or the standalone Alipay dialog:
these dialogs set no `unique_hash` (and no `occurred_at`). -/
structure BareInsRow where
  amount : Money
  kind : TxKind
  date : String
  description : String
  source : String
deriving DecidableEq

/-- Reading `r.unique_hash` from a bare row yields JS `undefined`. -/
def bareUniqueHash (_r : BareInsRow) : Option String := none

/-- Ledger row created by the store for a bare row: `unique_hash` NULL. -/
def toLedgerRowBare (id : Nat) (r : BareInsRow) : LedgerRow :=
  { id := id, amount := r.amount, kind := r.kind, date := r.date,
    description := r.description, source := r.source, uniqueHash := none }

/-- Rows of a bare chunk with consecutive fresh ids. -/
def rowsWithIdsBare (n0 : Nat) : List BareInsRow → List LedgerRow
  | [] => []
  | r :: rs => toLedgerRowBare n0 r :: rowsWithIdsBare (n0 + 1) rs

/-- Chunked insert loop for bare rows (`.insert(seg)` without
`.select('id')`; ids are not collected by these dialogs). -/
def insertBareChunks (resp : Nat → Option StoreErr) :
    List (List BareInsRow) → Nat → Store → Except (StoreErr × Store) Store
  | [], _, s => .ok s
  | seg :: rest, k, s =>
    match resp k with
    | some e => .error (e, s)
    | none =>
      insertBareChunks resp rest (k + 1)
        { ledger := s.ledger ++ rowsWithIdsBare s.nextId seg,
          balance := s.balance, nextId := s.nextId + seg.length }

/-- The `toInsert` builder of the WeChat dialog (`ImportWechatDialog`,
first variant, lines 136-161): skip neutral/unknown rows, parse the
amount with `wechatAmountToNumber` (no zero-amount guard), compute a
`wechat|...` fingerprint used only for in-batch dedup, and push a row
carrying the signed amount but no `unique_hash`. -/
def wechatToInsertGo (today : String) :
    List WechatRecordRaw → List String → List BareInsRow
  | [], _ => []
  | rec :: rest, uniq =>
    let kind := mapWechatTypeToTransaction rec.inOut
    if kind = .transfer then wechatToInsertGo today rest uniq
    else
      let occurredAt := normalizeDateTimeWx rec.time
      let dateStr := if occurredAt ≠ "" then takeStr occurredAt 10 else today
      let amount := wechatAmountToNumber rec.amountCell
      let desc := jsOrS rec.product rec.counterparty
      let fingerprint := "wechat|" ++ (if occurredAt ≠ "" then occurredAt else dateStr) ++
        "|" ++ intToStr (jsRoundCents amount) ++ "|" ++ desc ++ "|" ++
        rec.tradeId ++ "|" ++ rec.merchantId
      if uniq.contains fingerprint then wechatToInsertGo today rest uniq
      else
        { amount := if kind = .income then amount else -amount, kind := kind,
          date := dateStr ++ " 00:00:00", description := desc,
          source := "wechat" } :: wechatToInsertGo today rest (uniq ++ [fingerprint])

/-- `toInsert` for the WeChat dialog. -/
def wechatToInsert (today : String) (recs : List WechatRecordRaw) : List BareInsRow :=
  wechatToInsertGo today recs []

/-- Outcome of the WeChat / standalone-Alipay imports: final store state
and the toast report shown to the user. -/
structure BareImportResult where
  store : Store
  toastTitle : String
  toastDesc : String
  thrown : Option StoreErr
deriving DecidableEq

/-- The WeChat dialog import (`ImportWechatDialog`, first variant, lines
136-205).  The dedup query sends `toInsert.map(r => r.unique_hash)`,
which is a list of `undefined` values because these rows carry no
`unique_hash` — so the store returns no rows and nothing is filtered;
then chunks of 500 are inserted, and the delta (computed as
`r.type === 'income' ? r.amount : -r.amount` over the already-signed
amounts) is applied to the balance when nonzero. -/
def wechatImport (resp : Nat → Option StoreErr) (today : String)
    (recs : List WechatRecordRaw) (s : Store) : BareImportResult :=
  let toInsert := wechatToInsert today recs
  if toInsert = [] then
    ⟨s, "没有可导入的记录", "已跳过中性/未知交易", none⟩
  else
    let fps := toInsert.map bareUniqueHash
    let existedSet := (s.ledger.filter (fun row =>
      match row.uniqueHash with
      | some h => fps.contains (some h)
      | none => false)).filterMap (fun row => row.uniqueHash)
    let newRows := toInsert.filter (fun r =>
      match bareUniqueHash r with
      | some h => !(existedSet.contains h)
      | none => true)
    if newRows = [] then
      ⟨s, "没有可导入的新记录", "系统已自动忽略重复交易", none⟩
    else
      match insertBareChunks resp (chunksOf500 newRows) 0 s with
      | .error f => ⟨f.2, "导入失败", "", some f.1⟩
      | .ok s1 =>
        let delta := (newRows.map (fun r =>
          if r.kind = .income then r.amount else -r.amount)).sum
        let s2 := if delta ≠ 0 then { s1 with balance := s1.balance + delta } else s1
        ⟨s2, "导入成功", "已导入 " ++ natToStr toInsert.length ++ " 条记录", none⟩

/-- The `toInsert` builder of the standalone Alipay dialog
(`ImportAlipayDialog.tsx` lines 138-165): as the Edit-dialog builder but
with an `alipay|...` fingerprint used only for in-batch dedup, and rows
carrying no `unique_hash`. -/
def alipayDialogToInsertGo (today : String) :
    List AlipayRecordRaw → List String → List BareInsRow
  | [], _ => []
  | rec :: rest, uniq =>
    let kind := alipayTxKind rec.inOut
    if kind = .transfer then alipayDialogToInsertGo today rest uniq
    else
      let occurredAt := normalizeDateTime rec.time
      let dateStr := if occurredAt ≠ "" then takeStr occurredAt 10 else today
      let amount := (parseDecimal rec.amountCell).getD 0
      let desc := jsOrS rec.product rec.counterparty
      let fingerprint := "alipay|" ++ (if occurredAt ≠ "" then occurredAt else dateStr) ++
        "|" ++ intToStr (jsRoundCents amount) ++ "|" ++ desc ++ "|" ++
        rec.tradeId ++ "|" ++ rec.merchantId
      if uniq.contains fingerprint then alipayDialogToInsertGo today rest uniq
      else
        { amount := if kind = .income then amount else -amount, kind := kind,
          date := dateStr ++ " 00:00:00", description := desc,
          source := "alipay" } :: alipayDialogToInsertGo today rest (uniq ++ [fingerprint])

/-- `toInsert` for the standalone Alipay dialog. -/
def alipayDialogToInsert (today : String) (recs : List AlipayRecordRaw) :
    List BareInsRow :=
  alipayDialogToInsertGo today recs []

/-- The `description-amount-date` signature used by the standalone Alipay
dialog's dedup (`${t.description}-${t.amount}-${t.date}`). -/
def dashSigLedger (r : LedgerRow) : String :=
  r.description ++ "-" ++ jsNumToString r.amount ++ "-" ++ r.date

/-- The same signature over an insert candidate. -/
def dashSigBare (r : BareInsRow) : String :=
  r.description ++ "-" ++ jsNumToString r.amount ++ "-" ++ r.date

/-- The standalone Alipay dialog import (`ImportAlipayDialog.tsx` lines
138-220): neutral rows are skipped by the builder; dedup is by the
`description-amount-date` signature against all of the owner's rows;
survivors are inserted in chunks of 500; the delta (again
`r.type === 'income' ? r.amount : -r.amount` over signed amounts) is
applied when nonzero; the toast reports only the inserted-row count. -/
def alipayDialogImport (resp : Nat → Option StoreErr) (today : String)
    (recs : List AlipayRecordRaw) (s : Store) : BareImportResult :=
  let toInsert := alipayDialogToInsert today recs
  if toInsert = [] then
    ⟨s, "没有可导入的记录", "已跳过不计收支", none⟩
  else
    let existingHashes := s.ledger.map dashSigLedger
    let newRows := toInsert.filter (fun r => !(existingHashes.contains (dashSigBare r)))
    if newRows = [] then
      ⟨s, "没有可导入的新记录", "系统已自动忽略重复交易", none⟩
    else
      match insertBareChunks resp (chunksOf500 newRows) 0 s with
      | .error f => ⟨f.2, "导入失败", "", some f.1⟩
      | .ok s1 =>
        let delta := (newRows.map (fun r =>
          if r.kind = .income then r.amount else -r.amount)).sum
        let s2 := if delta ≠ 0 then { s1 with balance := s1.balance + delta } else s1
        ⟨s2, "导入成功",
          "已导入 " ++ natToStr newRows.length ++ " 条新记录（重复已忽略）", none⟩

/-! ## Encoding detection (`decodeBestEffort`, `src/pages/Index.tsx` 1002-1023) -/

/-- The candidate encodings, in priority order. -/
def decodeCandidates : List String := ["gb18030", "gbk", "gb2312", "utf-8"]

/-- The acceptance test of `decodeBestEffort`:
`text && text.includes("支付宝") || (text && text.includes("交易时间"))`
(a `null` decode from `tryDecode` and the empty string are falsy). -/
def anchorAccepts : Option String → Bool
  | none => false
  | some t => (t ≠ "" && containsStr t "支付宝") || (t ≠ "" && containsStr t "交易时间")

/-- The candidate loop: return the first decoded text accepted by the
anchor test. -/
def decodeLoop (tryDec : String → Option String) : List String → Option String
  | [] => none
  | enc :: rest =>
    let text := tryDec enc
    if anchorAccepts text then text else decodeLoop tryDec rest

/-- `decodeBestEffort`: try the candidates in order and accept the first
anchor-matching decode; when none matches, fall back to the UTF-8
decode (the empty string when even that fails).  `tryDec` models
`tryDecode` — the browser's `TextDecoder`, `none` for an unsupported
encoding. -/
def decodeBestEffort (tryDec : String → Option String) : String :=
  match decodeLoop tryDec decodeCandidates with
  | some t => t
  | none => (tryDec "utf-8").getD ""

/-! ## Positional reconstruction (`src/lib/boc.ts`, `src/lib/cmb.ts`) -/

/-- PDF glyph coordinates, exact in micro-units (1.0 = 1000000). -/
abbrev Coord := ℤ

/-- One unit of PDF user space. -/
def coordScale : Coord := 1000000

/-- A positioned text fragment of a PDF page's text layer
(`{x, y, text}` after the nonempty-trimmed-text filter). -/
structure Pt where
  x : Coord
  y : Coord
  text : String
deriving DecidableEq

/-- The column-assignment loop of `parseBocPdf` / `parseCmbPdf`
(`let idx = 0, best = Infinity; for i: d = |x - col[i]|; if d < best ...`):
running minimum distance (`none` = Infinity), current winner index, next
column index. -/
def nearestColumnGo (x : Coord) : List Coord → Option ℤ → Nat → Nat → Nat
  | [], _, idx, _ => idx
  | cx :: rest, best, idx, i =>
    let d := |x - cx|
    match best with
    | none => nearestColumnGo x rest (some d) i (i + 1)
    | some b =>
      if d < b then nearestColumnGo x rest (some d) i (i + 1)
      else nearestColumnGo x rest (some b) idx (i + 1)

/-- Index of the column whose reference x-coordinate is nearest to `x`
(first column on ties). -/
def nearestColumnIdx (colXs : List Coord) (x : Coord) : Nat :=
  nearestColumnGo x colXs none 0 0

/-- `cells[idx] = (cells[idx] ? cells[idx] + ' ' : '') + p.text`. -/
def joinCell (c t : String) : String := if c = "" then t else c ++ " " ++ t

/-- Add `t` to cell `i`. -/
def addToCell (cells : List String) (i : Nat) (t : String) : List String :=
  cells.set i (joinCell (cells.getD i "") t)

/-- Assign every glyph of a row cluster to its nearest column, joining
multiple glyphs of one cell with spaces. -/
def assignCells (colXs : List Coord) (ps : List Pt) : List String :=
  ps.foldl (fun cells p => addToCell cells (nearestColumnIdx colXs p.x) p.text)
    (List.replicate colXs.length "")

/-- Space-joined concatenation. -/
def spaceJoin : List String → String
  | [] => ""
  | t :: ts => ts.foldl (fun a u => a ++ " " ++ u) t

/-- One step of the y-clustering loop: append the glyph to the first
group whose key is within the tolerance, else open a new group keyed by
the glyph's y (JS `Map` iteration follows insertion order). -/
def clusterStep (tol : Coord) (groups : List (Coord × List Pt)) (p : Pt) :
    List (Coord × List Pt) :=
  match groups.find? (fun g => |g.1 - p.y| ≤ tol) with
  | some g => groups.map (fun g2 => if g2.1 = g.1 then (g2.1, g2.2 ++ [p]) else g2)
  | none => groups ++ [(p.y, [p])]

/-- Cluster glyphs into row groups by y within a tolerance band. -/
def clusterRows (tol : Coord) (pts : List Pt) : List (Coord × List Pt) :=
  pts.foldl (clusterStep tol) []

/-- Stable insertion into a sorted list (`le b a` keeps `b` in front). -/
def insertSortedBy (le : α → α → Bool) (a : α) : List α → List α
  | [] => [a]
  | b :: bs => if le b a then b :: insertSortedBy le a bs else a :: b :: bs

/-- Stable sort (JS `Array.sort` is stable). -/
def sortWithBy (le : α → α → Bool) : List α → List α
  | [] => []
  | a :: rest => insertSortedBy le a (sortWithBy le rest)

/-- A date separator (`[-\/.]`). -/
def isDateSep (c : Char) : Bool := c = '-' || c = '/' || c = '.'

/-- Consume one date separator. -/
def eatSep : List Char → Option (List Char)
  | [] => none
  | c :: cs => if isDateSep c then some cs else none

/-- The BOC data-row filter
`^\d{4}[-\/.]\d{2}[-\/.]\d{2}(?:\s+\d{2}:\d{2}(:\d{2})?)?$`. -/
def bocDateLike (s : String) : Bool :=
  match (do
    let p1 ← eatDigits 4 s.toList
    let r2 ← eatSep p1.2
    let p3 ← eatDigits 2 r2
    let r4 ← eatSep p3.2
    let p5 ← eatDigits 2 r4
    pure p5.2 : Option (List Char)) with
  | none => false
  | some [] => true
  | some r5 =>
    match (do
      let r6 ← eatWs1 r5
      let p7 ← eatDigits 2 r6
      let r8 ← eatChar ':' p7.2
      let p9 ← eatDigits 2 r8
      pure p9.2 : Option (List Char)) with
    | none => false
    | some [] => true
    | some r9 =>
      match (do
        let r10 ← eatChar ':' r9
        let p11 ← eatDigits 2 r10
        pure p11.2 : Option (List Char)) with
      | some [] => true
      | _ => false

/-! ## `parseBocPdf` (`src/lib/boc.ts` lines 31-132) -/

/-- Failure of the PDF rendering session (`pdfjs.getDocument(...).promise`
rejecting): a wrong or missing password raises the library's
`PasswordException`, modelled as `auth`; any other load failure as
`other`. -/
inductive PdfOpenError
  | auth
  | other
deriving DecidableEq

/-- Errors of `parseBocPdf`: a propagated session failure, or one of the
two header errors thrown by the function itself
(`未找到表头：缺少日期/记账日期/交易日期` and `未检测到有效表头`). -/
inductive BocParseError
  | openFailed (e : PdfOpenError)
  | dateHeaderMissing
  | noValidHeader
deriving DecidableEq

/-- `BocParseResult` of `src/lib/boc.ts`. -/
structure BocParseResult where
  header : List String
  rows : List (List String)
  records : List BocRecordRaw
deriving DecidableEq

/-- x-coordinate of the first glyph equal to a header label. -/
def findHeaderX (pts : List Pt) (label : String) : Option Coord :=
  (pts.find? (fun p => p.text = label)).map (fun p => p.x)

/-- `pick(...names)`: the first candidate label present among the glyphs,
with its x-coordinate. -/
def pickFirst (pts : List Pt) : List String → Option (String × Coord)
  | [] => none
  | n :: rest =>
    match findHeaderX pts n with
    | some x => some (n, x)
    | none => pickFirst pts rest

/-- The body of `parseBocPdf` on the extracted glyphs: locate header
anchors, fail when the mandatory date anchor is missing, cluster the
non-header glyphs into rows by y (tolerance 3.0), assign each glyph to
the nearest column, keep rows with a date-like first cell in descending
y order, and objectify the rows. -/
def parseBocPts (pts : List Pt) : Except BocParseError BocParseResult :=
  let hDate := pickFirst pts ["交易日期", "记账日期", "日期"]
  let hCcy := pickFirst pts ["币种", "币别", "币种名称"]
  let hDebit := pickFirst pts ["借方金额", "借方发生额", "支出"]
  let hCredit := pickFirst pts ["贷方金额", "贷方发生额", "收入"]
  let hAmt := pickFirst pts ["金额"]
  let hBal := pickFirst pts ["余额", "可用余额", "当前余额"]
  let hMemo := pickFirst pts ["摘要", "交易摘要", "附言"]
  let hPeer := pickFirst pts ["对方信息", "对方户名", "对方名称", "交易对手"]
  let cols := [hDate, hCcy, hDebit, hCredit, hAmt, hBal, hMemo, hPeer].filterMap id
  match hDate with
  | none => .error .dateHeaderMissing
  | some hd =>
    if cols = [] then .error .noValidHeader
    else
      let header := cols.map (fun c => c.1)
      let colXs := cols.map (fun c => c.2)
      let groups := clusterRows (3 * coordScale)
        (pts.filter (fun p => !(header.contains p.text)))
      let yKeys := sortWithBy (fun u v => v ≤ u) (groups.map (fun g => g.1))
      let rows := yKeys.filterMap (fun y =>
        match groups.find? (fun g => g.1 = y) with
        | some g =>
          let ps := sortWithBy (fun u v => u.x ≤ v.x) g.2
          let cells := assignCells colXs ps
          if bocDateLike (cells.getD 0 "") then some cells else none
        | none => none)
      let cellOf := fun (r : List String) (o : Option (String × Coord)) =>
        o.map (fun c => r.getD (header.indexOf c.1) "")
      let records := rows.map (fun r =>
        { dateCell := r.getD (header.indexOf hd.1) "",
          currency := cellOf r hCcy, debitCell := cellOf r hDebit,
          creditCell := cellOf r hCredit, amountCell := cellOf r hAmt,
          balanceCell := cellOf r hBal, memoCell := cellOf r hMemo,
          peerCell := cellOf r hPeer })
      .ok { header := header, rows := rows, records := records }

/-- `parseBocPdf`: open the rendering session (with the optional
password), propagating its failure; then run the positional
reconstruction on the extracted glyphs.  `opened` is the outcome of the
session-opening stage (`await pdfjs.getDocument({data, password}).promise`
plus glyph extraction), an external collaborator. -/
def parseBocPdf (opened : Except PdfOpenError (List Pt)) :
    Except BocParseError BocParseResult :=
  match opened with
  | .error e => .error (.openFailed e)
  | .ok pts => parseBocPts pts

/-! ## Lemmas about the commit machinery -/

theorem rowsWithIds_append (a b : List InsRow) (n0 : Nat) :
    rowsWithIds n0 (a ++ b) = rowsWithIds n0 a ++ rowsWithIds (n0 + a.length) b := by
  induction a generalizing n0 with
  | nil => simp [rowsWithIds]
  | cons r rs ih =>
    have h : n0 + 1 + rs.length = n0 + (rs.length + 1) := by omega
    simp [rowsWithIds, ih, h]

theorem idsFrom_append (a b : Nat) (n0 : Nat) :
    idsFrom n0 (a + b) = idsFrom n0 a ++ idsFrom (n0 + a) b := by
  induction a generalizing n0 with
  | zero => simp [idsFrom]
  | succ a ih =>
    have h1 : a + 1 + b = (a + b) + 1 := by omega
    have h2 : n0 + 1 + a = n0 + (a + 1) := by omega
    simp [h1, idsFrom, ih, h2]

theorem rowsWithIds_length (l : List InsRow) (n0 : Nat) :
    (rowsWithIds n0 l).length = l.length := by
  induction l generalizing n0 with
  | nil => simp [rowsWithIds]
  | cons r rs ih => simp [rowsWithIds, ih]

theorem rowsWithIds_map_amount (l : List InsRow) (n0 : Nat) :
    (rowsWithIds n0 l).map (fun r => r.amount) = l.map (fun r => r.amount) := by
  induction l generalizing n0 with
  | nil => simp [rowsWithIds]
  | cons r rs ih => simp [rowsWithIds, ih, toLedgerRow]

theorem chunksGo_flatten (l : List α) :
    ∀ (cap : Nat) (acc : List α), (chunksGo cap acc l).flatten = acc ++ l := by
  induction l with
  | nil => intro cap acc; simp [chunksGo]
  | cons x rest ih =>
    intro cap acc
    cases cap with
    | zero => simp [chunksGo, ih]
    | succ c => simp [chunksGo, ih]

theorem chunksOf500_flatten (l : List α) : (chunksOf500 l).flatten = l := by
  cases l with
  | nil => simp [chunksOf500]
  | cons x rest => simp [chunksOf500, chunksGo_flatten]

theorem insertChunks_respOk (chunks : List (List InsRow)) :
    ∀ (k : Nat) (s : Store) (ids : List Nat) (rws : List LedgerRow) (ops : List StoreOp),
    insertChunks respOk chunks k s ids rws ops =
      .ok ⟨ids ++ idsFrom s.nextId chunks.flatten.length,
           rws ++ rowsWithIds s.nextId chunks.flatten,
           ⟨s.ledger ++ rowsWithIds s.nextId chunks.flatten, s.balance,
            s.nextId + chunks.flatten.length⟩,
           ops ++ chunks.map (fun c => StoreOp.insertChunk c.length)⟩ := by
  induction chunks with
  | nil =>
    intro k s ids rws ops
    simp [insertChunks, idsFrom, rowsWithIds]
  | cons seg rest ih =>
    intro k s ids rws ops
    simp only [insertChunks, respOk, ih]
    simp [List.flatten_cons, rowsWithIds_append, idsFrom_append, rowsWithIds_length,
      List.append_assoc, Nat.add_assoc]

theorem mem_jsSetOfList_go (a : String) (l : List String) :
    ∀ acc, a ∈ l.foldl (fun acc h => if acc.contains h then acc else acc ++ [h]) acc ↔
      a ∈ acc ∨ a ∈ l := by
  induction l with
  | nil => intro acc; simp
  | cons h t ih =>
    intro acc
    by_cases hc : acc.contains h = true
    · have hmem : h ∈ acc := List.elem_iff.mp hc
      simp only [List.foldl_cons, if_pos hc, ih]
      constructor
      · rintro (h1 | h2)
        · exact Or.inl h1
        · exact Or.inr (List.mem_cons_of_mem _ h2)
      · rintro (h1 | h2)
        · exact Or.inl h1
        · rcases List.mem_cons.mp h2 with h3 | h3
          · exact Or.inl (h3 ▸ hmem)
          · exact Or.inr h3
    · simp only [List.foldl_cons, if_neg hc, ih]
      simp only [List.mem_append, List.mem_cons, List.mem_singleton]
      tauto

theorem mem_jsSetOfList (a : String) (l : List String) :
    a ∈ jsSetOfList l ↔ a ∈ l := by
  have h := mem_jsSetOfList_go a l []
  simp only [List.not_mem_nil, false_or] at h
  exact h

theorem mem_existedHashSet (h0 : String) (s : Store) (fps : List String) :
    h0 ∈ existedHashSet s fps ↔
      h0 ∈ fps ∧ ∃ row ∈ s.ledger, row.uniqueHash = some h0 := by
  unfold existedHashSet
  simp only [List.mem_filterMap, List.mem_filter]
  constructor
  · rintro ⟨row, ⟨hmem, hpred⟩, hh⟩
    cases hrow : row.uniqueHash with
    | none => simp [hrow] at hh
    | some h1 =>
      have he : h1 = h0 := by simpa [hrow] using hh
      subst he
      refine ⟨?_, row, hmem, hrow⟩
      have hp := hpred
      simp only [hrow] at hp
      exact List.elem_iff.mp hp
  · rintro ⟨hfps, row, hmem, hrow⟩
    exact ⟨row, ⟨hmem, by simp only [hrow]; exact List.elem_iff.mpr hfps⟩, by simp [hrow]⟩

theorem uniqueHash_mem_queryFps (T : List InsRow) (fps : List String) (r : InsRow)
    (hr : r ∈ T) : r.uniqueHash ∈ commitQueryFps T fps := by
  unfold commitQueryFps
  rw [mem_jsSetOfList]
  exact List.mem_append.mpr (Or.inl (List.mem_map_of_mem _ hr))

theorem fieldSigLedger_toLedgerRow (id : Nat) (r : InsRow) :
    fieldSigLedger (toLedgerRow id r) = fieldSigIns r := rfl

theorem uniqueHash_toLedgerRow (id : Nat) (r : InsRow) :
    (toLedgerRow id r).uniqueHash = some r.uniqueHash := rfl

theorem exists_twin_in_rowsWithIds (r : InsRow) (l : List InsRow) (n0 : Nat)
    (hr : r ∈ l) :
    ∃ row ∈ rowsWithIds n0 l, row.uniqueHash = some r.uniqueHash := by
  induction l generalizing n0 with
  | nil => cases hr
  | cons a as ih =>
    rcases List.mem_cons.mp hr with h | h
    · exact ⟨toLedgerRow n0 a, List.mem_cons_self _ _, by rw [h]; rfl⟩
    · obtain ⟨row, hmem, hh⟩ := ih (n0 + 1) h
      exact ⟨row, List.mem_cons_of_mem _ hmem, hh⟩

theorem mem_commitFiltered_iff (T : List InsRow) (fps : List String) (s : Store)
    (r : InsRow) (hr : r ∈ T) :
    r ∈ commitFiltered T fps s ↔
      (¬ ∃ row ∈ s.ledger, row.uniqueHash = some r.uniqueHash) ∧
      fieldSigIns r ∉ s.ledger.map fieldSigLedger := by
  unfold commitFiltered
  simp only [List.mem_filter, Bool.and_eq_true, Bool.not_eq_true']
  constructor
  · rintro ⟨-, h1, h2⟩
    refine ⟨fun hex => ?_, fun hf => ?_⟩
    · have hmem : r.uniqueHash ∈ existedHashSet s (commitQueryFps T fps) :=
        (mem_existedHashSet _ _ _).mpr ⟨uniqueHash_mem_queryFps T fps r hr, hex⟩
      have h1n : r.uniqueHash ∉ existedHashSet s (commitQueryFps T fps) := by
        simpa using h1
      exact h1n hmem
    · have h2n : fieldSigIns r ∉ s.ledger.map fieldSigLedger := by simpa using h2
      exact h2n hf
  · rintro ⟨h1, h2⟩
    refine ⟨hr, ?_, ?_⟩
    · have : r.uniqueHash ∉ existedHashSet s (commitQueryFps T fps) :=
        fun hcon => h1 ((mem_existedHashSet _ _ _).mp hcon).2
      simpa using this
    · simpa using h2

theorem commitPhase_respOk_eq (T : List InsRow) (fps : List String) (s : Store)
    (hT : T ≠ []) (hF : commitFiltered T fps s ≠ []) :
    commitPhase respOk T fps s =
      .ok (rowsWithIds s.nextId (commitFiltered T fps s))
        (idsFrom s.nextId (commitFiltered T fps s).length)
        (((commitFiltered T fps s).map (fun r => r.amount)).sum)
        ⟨s.ledger ++ rowsWithIds s.nextId (commitFiltered T fps s),
         s.balance + ((commitFiltered T fps s).map (fun r => r.amount)).sum,
         s.nextId + (commitFiltered T fps s).length⟩
        ([.queryHashes (commitQueryFps T fps), .queryFields] ++
          (chunksOf500 (commitFiltered T fps s)).map (fun c => StoreOp.insertChunk c.length) ++
          (if ((commitFiltered T fps s).map (fun r => r.amount)).sum ≠ 0 then
            [.readBalance, .writeBalance
              (s.balance + ((commitFiltered T fps s).map (fun r => r.amount)).sum)]
           else [])) := by
  unfold commitPhase
  rw [if_neg hT]
  simp only [if_neg hF, insertChunks_respOk, chunksOf500_flatten]
  by_cases hd : ((commitFiltered T fps s).map (fun r => r.amount)).sum = 0
  · simp [hd]
  · simp [hd]

theorem commitPhase_respOk_allDup (T : List InsRow) (fps : List String) (s : Store)
    (hT : T ≠ []) (hF : commitFiltered T fps s = []) :
    commitPhase respOk T fps s =
      .allDuplicates s [.queryHashes (commitQueryFps T fps), .queryFields] := by
  unfold commitPhase
  rw [if_neg hT]
  simp [hF]

theorem commitPhase_twice (T : List InsRow) (fps1 fps2 : List String) (s : Store) :
    (commitPhase respOk T fps2 (commitPhase respOk T fps1 s).state).committedRows = [] ∧
    (commitPhase respOk T fps2 (commitPhase respOk T fps1 s).state).state =
      (commitPhase respOk T fps1 s).state := by
  by_cases hT : T = []
  · subst hT
    simp [commitPhase, CommitResult.state, CommitResult.committedRows]
  · by_cases hF : commitFiltered T fps1 s = []
    · rw [commitPhase_respOk_allDup T fps1 s hT hF]
      have hF2 : commitFiltered T fps2 s = [] := by
        rw [List.eq_nil_iff_forall_not_mem] at hF ⊢
        intro r hr2
        have hrT : r ∈ T := (List.mem_filter.mp hr2).1
        exact hF r ((mem_commitFiltered_iff T fps1 s r hrT).mpr
          ((mem_commitFiltered_iff T fps2 s r hrT).mp hr2))
      show (commitPhase respOk T fps2 s).committedRows = [] ∧
        (commitPhase respOk T fps2 s).state = s
      rw [commitPhase_respOk_allDup T fps2 s hT hF2]
      exact ⟨rfl, rfl⟩
    · rw [commitPhase_respOk_eq T fps1 s hT hF]
      simp only [CommitResult.state]
      have hF2 : commitFiltered T fps2
          (⟨s.ledger ++ rowsWithIds s.nextId (commitFiltered T fps1 s),
            s.balance + (((commitFiltered T fps1 s).map (fun r => r.amount)).sum),
            s.nextId + (commitFiltered T fps1 s).length⟩ : Store) = [] := by
        rw [List.eq_nil_iff_forall_not_mem]
        intro r hr2
        have hrT : r ∈ T := (List.mem_filter.mp hr2).1
        have h2 := (mem_commitFiltered_iff T fps2 _ r hrT).mp hr2
        by_cases hrF : r ∈ commitFiltered T fps1 s
        · obtain ⟨row, hrow, hh⟩ :=
            exists_twin_in_rowsWithIds r (commitFiltered T fps1 s) s.nextId hrF
          exact h2.1 ⟨row, List.mem_append.mpr (Or.inr hrow), hh⟩
        · have hnot : ¬ ((¬ ∃ row ∈ s.ledger, row.uniqueHash = some r.uniqueHash) ∧
              fieldSigIns r ∉ s.ledger.map fieldSigLedger) :=
            fun hc => hrF ((mem_commitFiltered_iff T fps1 s r hrT).mpr hc)
          rcases not_and_or.mp hnot with hc | hc
          · obtain ⟨row, hrow, hh⟩ := not_not.mp hc
            exact h2.1 ⟨row, List.mem_append.mpr (Or.inl hrow), hh⟩
          · have hfld : fieldSigIns r ∈ s.ledger.map fieldSigLedger := not_not.mp hc
            apply h2.2
            show fieldSigIns r ∈
              (s.ledger ++ rowsWithIds s.nextId (commitFiltered T fps1 s)).map fieldSigLedger
            rw [List.map_append]
            exact List.mem_append.mpr (Or.inl hfld)
      show (commitPhase respOk T fps2 _).committedRows = [] ∧
        (commitPhase respOk T fps2 _).state = _
      rw [commitPhase_respOk_allDup T fps2 _ hT hF2]
      exact ⟨rfl, rfl⟩

theorem mem_idsFrom_of_mem_rowsWithIds (row : LedgerRow) (l : List InsRow) (n0 : Nat)
    (h : row ∈ rowsWithIds n0 l) : row.id ∈ idsFrom n0 l.length := by
  induction l generalizing n0 with
  | nil => cases h
  | cons a as ih =>
    rcases List.mem_cons.mp h with h1 | h1
    · simp [idsFrom, h1, toLedgerRow]
    · exact List.mem_cons_of_mem _ (ih (n0 + 1) h1)

theorem idsFrom_ne_nil (n0 len : Nat) (h : len ≠ 0) : idsFrom n0 len ≠ [] := by
  cases len with
  | zero => exact absurd rfl h
  | succ l => simp [idsFrom]

/-! ## Claim theorems -/

/-- C1.  Dedup idempotence: running the Alipay (EditTransactionDialog) or
BOC import a second time on the same parsed file, starting from the
state a first run produced, commits zero ledger rows and leaves the
whole store — in particular the account balance — unchanged: every
record of the second batch is matched by the current/legacy fingerprint
lookup or the field-combination fallback and is dropped before insert. -/
theorem dedup_idempotence (recsA : List AlipayRecordRaw) (recsB : List BocRecordRaw)
    (today : String) (sA sB : Store) :
    ((editAlipayImport respOk today recsA
        (editAlipayImport respOk today recsA sA).state).committedRows = [] ∧
      (editAlipayImport respOk today recsA
        (editAlipayImport respOk today recsA sA).state).state =
        (editAlipayImport respOk today recsA sA).state) ∧
    ((bocImport respOk recsB (bocImport respOk recsB sB).state).committedRows = [] ∧
      (bocImport respOk recsB (bocImport respOk recsB sB).state).state =
        (bocImport respOk recsB sB).state) :=
  ⟨commitPhase_twice _ _ _ _, commitPhase_twice _ _ _ _⟩

/-- C2.  Balance conservation: a successful commit of the surviving
records adds exactly the sum of their signed amounts to the account
balance; the compensating action then restores the balance to its
pre-import value exactly, and none of the committed rows remains in the
ledger. -/
theorem balance_conservation (T : List InsRow) (fps : List String) (s : Store)
    (committed : List LedgerRow) (ids : List Nat) (delta : Money) (s1 : Store)
    (ops : List StoreOp)
    (h : commitPhase respOk T fps s = .ok committed ids delta s1 ops) :
    s1.balance = s.balance + (committed.map (fun r => r.amount)).sum ∧
    (undoImport ids delta s1).1.balance = s.balance ∧
    ∀ row ∈ committed, row ∉ (undoImport ids delta s1).1.ledger := by
  by_cases hT : T = []
  · subst hT; simp [commitPhase] at h
  · by_cases hF : commitFiltered T fps s = []
    · rw [commitPhase_respOk_allDup T fps s hT hF] at h; simp at h
    · rw [commitPhase_respOk_eq T fps s hT hF] at h
      injection h with h1 h2 h3 h4 h5
      subst h1; subst h2; subst h3; subst h4
      have hlen : (commitFiltered T fps s).length ≠ 0 := by
        intro hc; exact hF (List.length_eq_zero.mp hc)
      have hids : idsFrom s.nextId (commitFiltered T fps s).length ≠ [] :=
        idsFrom_ne_nil _ _ hlen
      refine ⟨?_, ?_, ?_⟩
      · show s.balance + ((commitFiltered T fps s).map (fun r => r.amount)).sum =
          s.balance + ((rowsWithIds s.nextId (commitFiltered T fps s)).map
            (fun r => r.amount)).sum
        rw [rowsWithIds_map_amount]
      · unfold undoImport
        simp only [if_neg hids]
        by_cases hd : ((commitFiltered T fps s).map (fun r => r.amount)).sum = 0
        · simp [hd]
        · simp [hd]
      · intro row hrow hmem
        have hid : row.id ∈ idsFrom s.nextId (commitFiltered T fps s).length :=
          mem_idsFrom_of_mem_rowsWithIds row _ _ hrow
        unfold undoImport at hmem
        simp only [if_neg hids] at hmem
        by_cases hd : ((commitFiltered T fps s).map (fun r => r.amount)).sum = 0
        · simp [hd] at hmem
          rcases hmem with ⟨-, hno⟩ | ⟨-, hno⟩ <;> exact hno hid
        · simp [hd] at hmem
          rcases hmem with ⟨-, hno⟩ | ⟨-, hno⟩ <;> exact hno hid

/-- Concrete one-record batch for the C2 witness. -/
def rowC2 : InsRow :=
  { amount := 5000000, kind := .income, date := "2024-01-02 00:00:00",
    occurredAt := "2024-01-02 03:04:05", description := "salary",
    source := "alipay", uniqueHash := "h-c2" }

/-- Concrete pre-import store for the C2 witness. -/
def storeC2 : Store := { ledger := [], balance := 1000000000, nextId := 1 }

/-- Ledger rows committed in the C2 witness run. -/
def commC2 : List LedgerRow := rowsWithIds storeC2.nextId [rowC2]

/-- Post-commit store of the C2 witness run. -/
def s1C2 : Store := ⟨commC2, 1005000000, 2⟩

/-- Witness for `balance_conservation`: on a concrete one-record import
into an account at 1000.00, the commit yields 1005.00 and the undo
restores 1000.00 with the row gone. -/
theorem balance_conservation_witness :
    s1C2.balance = storeC2.balance + ((commC2.map (fun r => r.amount)).sum) ∧
    (undoImport [1] 5000000 s1C2).1.balance = storeC2.balance ∧
    ∀ row ∈ commC2, row ∉ (undoImport [1] 5000000 s1C2).1.ledger :=
  balance_conservation [rowC2] [] storeC2 commC2 [1] 5000000 s1C2
    [.queryHashes ["h-c2"], .queryFields, .insertChunk 1, .readBalance,
     .writeBalance 1005000000] (by decide)

/-- C10.  Zero-delta frame property: when the committed batch's net
signed delta is zero, the commit path performs no read or write of the
account's balance row (no balance operation appears in its trace, and
the balance value is untouched), and so does the compensating action. -/
theorem zero_delta_frame (T : List InsRow) (fps : List String) (s : Store)
    (committed : List LedgerRow) (ids : List Nat) (s1 : Store) (ops : List StoreOp)
    (h : commitPhase respOk T fps s = .ok committed ids 0 s1 ops) :
    s1.balance = s.balance ∧
    (∀ op ∈ ops, touchesBalance op = false) ∧
    (undoImport ids 0 s1).1.balance = s1.balance ∧
    (∀ op ∈ (undoImport ids 0 s1).2, touchesBalance op = false) := by
  by_cases hT : T = []
  · subst hT; simp [commitPhase] at h
  · by_cases hF : commitFiltered T fps s = []
    · rw [commitPhase_respOk_allDup T fps s hT hF] at h; simp at h
    · rw [commitPhase_respOk_eq T fps s hT hF] at h
      injection h with h1 h2 h3 h4 h5
      refine ⟨?_, ?_, ?_, ?_⟩
      · rw [← h4]; simp [h3]
      · intro op hop
        rw [← h5] at hop
        simp only [h3] at hop
        simp only [if_neg (by simp : ¬ ((0 : Money) ≠ 0)), List.append_nil] at hop
        rcases List.mem_append.mp hop with h6 | h6
        · rcases List.mem_cons.mp h6 with h7 | h7
          · subst h7; rfl
          · rcases List.mem_cons.mp h7 with h8 | h8
            · subst h8; rfl
            · cases h8
        · obtain ⟨c, -, h7⟩ := List.mem_map.mp h6
          subst h7; rfl
      · unfold undoImport
        by_cases hi : ids = [] <;> simp [hi]
      · intro op hop
        unfold undoImport at hop
        by_cases hi : ids = [] <;> simp [hi] at hop
        subst hop; rfl

/-- Concrete +5.00 record for the C10 witness. -/
def rowC10p : InsRow :=
  { amount := 5000000, kind := .income, date := "2024-01-02 00:00:00",
    occurredAt := "2024-01-02 03:04:05", description := "in",
    source := "alipay", uniqueHash := "hp" }

/-- Concrete -5.00 record for the C10 witness. -/
def rowC10n : InsRow :=
  { amount := -5000000, kind := .expense, date := "2024-01-03 00:00:00",
    occurredAt := "2024-01-03 03:04:05", description := "out",
    source := "alipay", uniqueHash := "hn" }

/-- Concrete pre-import store for the C10 witness. -/
def storeC10 : Store := { ledger := [], balance := 777000000, nextId := 10 }

/-- Post-commit store of the C10 witness run (delta is zero). -/
def s1C10 : Store := ⟨rowsWithIds storeC10.nextId [rowC10p, rowC10n], 777000000, 12⟩

/-- Witness for `zero_delta_frame`: a batch of +5.00 and -5.00 commits
with delta 0, touching no balance operation in either direction. -/
theorem zero_delta_frame_witness :
    s1C10.balance = storeC10.balance ∧
    (∀ op ∈ [StoreOp.queryHashes ["hp", "hn"], StoreOp.queryFields,
      StoreOp.insertChunk 2], touchesBalance op = false) ∧
    (undoImport [10, 11] 0 s1C10).1.balance = s1C10.balance ∧
    (∀ op ∈ (undoImport [10, 11] 0 s1C10).2, touchesBalance op = false) :=
  zero_delta_frame [rowC10p, rowC10n] [] storeC10
    (rowsWithIds storeC10.nextId [rowC10p, rowC10n]) [10, 11] s1C10
    [StoreOp.queryHashes ["hp", "hn"], StoreOp.queryFields, StoreOp.insertChunk 2]
    (by decide)

theorem chunksGo_ne_nil (l : List α) : ∀ (cap : Nat) (acc : List α),
    chunksGo cap acc l ≠ [] := by
  induction l with
  | nil => intro cap acc; simp [chunksGo]
  | cons x rest ih =>
    intro cap acc
    cases cap with
    | zero => simp [chunksGo]
    | succ c => simpa [chunksGo] using ih c (acc ++ [x])

theorem chunksOf500_ne_nil (l : List α) (h : l ≠ []) : chunksOf500 l ≠ [] := by
  cases l with
  | nil => exact absurd rfl h
  | cons x rest => simpa [chunksOf500] using chunksGo_ne_nil rest 499 [x]

/-- A store behaviour that reports a uniqueness violation on the first
inserted chunk. -/
def respUV : Nat → Option StoreErr := fun _ => some .uniqueViolation

/-- A non-duplicate record reaching the insert in the C3 run. -/
def rowC3 : InsRow :=
  { amount := 5000000, kind := .income, date := "2024-01-02 00:00:00",
    occurredAt := "2024-01-02 03:04:05", description := "salary",
    source := "alipay", uniqueHash := "h-c3" }

/-- Concrete pre-import store for the C3 run. -/
def storeC3 : Store := { ledger := [], balance := 0, nextId := 1 }

/-- C3 counterexample.  When the store reports a uniqueness violation on
insert, the import does not treat the record as already present and
continue: the violation is thrown (`if (insErr) throw insErr`), the run
ends in the `failed` state with the error propagated, and nothing is
committed. -/
theorem uniqueViolation_fatal_counterexample :
    commitPhase respUV [rowC3] [] storeC3 =
      .failed .uniqueViolation storeC3
        [.queryHashes ["h-c3"], .queryFields, .insertChunk 1] ∧
    (commitPhase respUV [rowC3] [] storeC3).thrown = some .uniqueViolation ∧
    (commitPhase respUV [rowC3] [] storeC3).committedRows = [] := by
  refine ⟨by decide, by decide, by decide⟩

/-- C3 amended.  A store error — in particular a uniqueness violation —
reported for the first inserted chunk is propagated as a fatal import
error: the run ends in the `failed` state carrying that error, with the
store unchanged and zero committed rows; the conflicting record is not
filtered-and-skipped. -/
theorem uniqueViolation_propagates (resp : Nat → Option StoreErr)
    (T : List InsRow) (fps : List String) (s : Store) (e : StoreErr)
    (h0 : resp 0 = some e) (hT : T ≠ []) (hF : commitFiltered T fps s ≠ []) :
    (commitPhase resp T fps s).thrown = some e ∧
    (commitPhase resp T fps s).state = s ∧
    (commitPhase resp T fps s).committedRows = [] := by
  unfold commitPhase
  rw [if_neg hT]
  simp only [if_neg hF]
  cases hch : chunksOf500 (commitFiltered T fps s) with
  | nil => exact absurd hch (chunksOf500_ne_nil _ hF)
  | cons seg rest =>
    simp [insertChunks, h0, CommitResult.thrown, CommitResult.state,
      CommitResult.committedRows]

/-- Witness for `uniqueViolation_propagates` at the concrete C3 input. -/
theorem uniqueViolation_propagates_witness :
    (commitPhase respUV [rowC3] [] storeC3).thrown = some .uniqueViolation ∧
    (commitPhase respUV [rowC3] [] storeC3).state = storeC3 ∧
    (commitPhase respUV [rowC3] [] storeC3).committedRows = [] :=
  uniqueViolation_propagates respUV [rowC3] [] storeC3 .uniqueViolation
    (by decide) (by decide) (by decide)

/-- A WeChat expense row whose amount cell fails numeric parsing
(`wechatAmountToNumber` coerces the NaN to 0). -/
def recC5 : WechatRecordRaw :=
  { time := "2024-01-02 03:04:05", txTypeCell := "商户消费", counterparty := "某店",
    product := "", inOut := "支出", amountCell := "N/A", payMethod := "",
    status := "", tradeId := "t1", merchantId := "m1", note := "" }

/-- Concrete pre-import store for the C5 run. -/
def storeC5 : Store := ⟨[], 0, 1⟩

/-- C5 counterexample.  The WeChat import path inserts a ledger row with
`signedAmount = 0`: the expense row whose `金额(元)` cell is `N/A` is
parsed to 0, survives to commit, and lands in the ledger. -/
theorem zero_amount_committed_counterexample :
    ((wechatImport respOk "2024-09-01" [recC5] storeC5).store.ledger.map
      (fun r => r.amount)) = [0] ∧
    (wechatImport respOk "2024-09-01" [recC5] storeC5).toastTitle = "导入成功" := by
  refine ⟨by decide, by decide⟩

theorem bocToInsertGo_amount_ne_zero (recs : List BocRecordRaw) :
    ∀ (uniq : List String) (r : InsRow), r ∈ bocToInsertGo recs uniq → r.amount ≠ 0 := by
  induction recs with
  | nil => intro uniq r hr; cases hr
  | cons rec rest ih =>
    intro uniq r hr
    unfold bocToInsertGo at hr
    by_cases hz : (bocAmountKind rec).1 = 0
    · simp only [hz, if_pos rfl] at hr
      exact ih uniq r hr
    · simp only [if_neg hz] at hr
      by_cases hc : uniq.contains (bocStoredFp rec) = true
      · rw [if_pos hc] at hr
        exact ih uniq r hr
      · rw [if_neg hc] at hr
        rcases List.mem_cons.mp hr with h1 | h1
        · subst h1
          by_cases hk : (bocAmountKind rec).2 = TxKind.income
          · simpa [hk] using hz
          · simpa [hk] using fun hcon => hz (neg_eq_zero.mp hcon)
        · exact ih _ r h1

/-- C5 amended.  Only the BOC path enforces the nonzero-amount commit
invariant (`if (!amt) continue`): every record surviving to the BOC
commit has a nonzero signed amount.  The WeChat path (and the other
dialogs without the guard) inserts rows whose signed amount is 0 when
the amount cell parses to 0 — see the counterexample. -/
theorem boc_nonzero_amount_invariant (recs : List BocRecordRaw) (r : InsRow)
    (hr : r ∈ bocToInsert recs) : r.amount ≠ 0 :=
  bocToInsertGo_amount_ne_zero recs [] r hr

/-- A concrete BOC credit record for the C5 witness. -/
def recC5boc : BocRecordRaw :=
  { dateCell := "2024-01-02", currency := none, debitCell := some "",
    creditCell := some "5.00", amountCell := none, balanceCell := some "100.00",
    memoCell := some "工资", peerCell := none }

/-- The row the BOC builder produces for `recC5boc`. -/
def rowC5boc : InsRow :=
  { amount := 5000000, kind := TxKind.income, date := "2024-01-02 00:00:00",
    occurredAt := "2024-01-02 00:00:00", description := "工资",
    source := "boc", uniqueHash := "202401025.00100.00" }

/-- Witness for `boc_nonzero_amount_invariant` on a concrete BOC batch. -/
theorem boc_nonzero_amount_invariant_witness :
    rowC5boc ∈ bocToInsert [recC5boc] ∧ rowC5boc.amount ≠ 0 :=
  ⟨by decide, boc_nonzero_amount_invariant [recC5boc] rowC5boc (by decide)⟩

theorem alipayDialogToInsertGo_filter_neutral (today : String)
    (recs : List AlipayRecordRaw) :
    ∀ uniq, alipayDialogToInsertGo today
        (recs.filter (fun rec => decide (alipayTxKind rec.inOut ≠ TxKind.transfer))) uniq =
      alipayDialogToInsertGo today recs uniq := by
  induction recs with
  | nil => intro uniq; rfl
  | cons rec rest ih =>
    intro uniq
    rw [List.filter_cons]
    by_cases ht : alipayTxKind rec.inOut = TxKind.transfer
    · rw [if_neg (by simp [ht])]
      conv_rhs => rw [alipayDialogToInsertGo]
      rw [if_pos ht]
      exact ih uniq
    · rw [if_pos (by simp [ht])]
      conv_lhs => rw [alipayDialogToInsertGo]
      conv_rhs => rw [alipayDialogToInsertGo]
      simp only [if_neg ht]
      simp only [ih]

theorem wechatToInsertGo_filter_neutral (today : String)
    (recs : List WechatRecordRaw) :
    ∀ uniq, wechatToInsertGo today
        (recs.filter (fun rec =>
          decide (mapWechatTypeToTransaction rec.inOut ≠ TxKind.transfer))) uniq =
      wechatToInsertGo today recs uniq := by
  induction recs with
  | nil => intro uniq; rfl
  | cons rec rest ih =>
    intro uniq
    rw [List.filter_cons]
    by_cases ht : mapWechatTypeToTransaction rec.inOut = TxKind.transfer
    · rw [if_neg (by simp [ht])]
      conv_rhs => rw [wechatToInsertGo]
      rw [if_pos ht]
      exact ih uniq
    · rw [if_pos (by simp [ht])]
      conv_lhs => rw [wechatToInsertGo]
      conv_rhs => rw [wechatToInsertGo]
      simp only [if_neg ht]
      simp only [ih]

/-- C6 amended.  Neutral-row exclusion holds for commit and delta: rows
whose direction maps to transfer/not-counted are skipped by the builders,
so the entire import outcome — committed rows, balance delta, store state
and the toast report — is identical when they are removed from the input.
The report, however, does not state how many such rows were skipped (see
the counterexample). -/
theorem neutral_row_exclusion (resp : Nat → Option StoreErr) (today : String)
    (arecs : List AlipayRecordRaw) (wrecs : List WechatRecordRaw) (s s2 : Store) :
    alipayDialogImport resp today
        (arecs.filter (fun rec => decide (alipayTxKind rec.inOut ≠ TxKind.transfer))) s =
      alipayDialogImport resp today arecs s ∧
    wechatImport resp today
        (wrecs.filter (fun rec =>
          decide (mapWechatTypeToTransaction rec.inOut ≠ TxKind.transfer))) s2 =
      wechatImport resp today wrecs s2 := by
  constructor
  · unfold alipayDialogImport alipayDialogToInsert
    rw [alipayDialogToInsertGo_filter_neutral]
  · unfold wechatImport wechatToInsert
    rw [wechatToInsertGo_filter_neutral]

/-- An income row committed in the C6 counterexample runs. -/
def recC6income : AlipayRecordRaw :=
  { time := "2024-01-02 03:04:05", category := "日用", counterparty := "店A",
    accountCell := "", product := "午餐", inOut := "收入", amountCell := "10",
    payMethod := "", status := "", tradeId := "T1", merchantId := "M1", note := "" }

/-- A first neutral (`不计收支`) row. -/
def recC6neutral1 : AlipayRecordRaw :=
  { time := "2024-01-03 04:05:06", category := "", counterparty := "自己",
    accountCell := "", product := "转账1", inOut := "不计收支", amountCell := "50",
    payMethod := "", status := "", tradeId := "T2", merchantId := "M2", note := "" }

/-- A second, distinct neutral row. -/
def recC6neutral2 : AlipayRecordRaw :=
  { time := "2024-01-04 05:06:07", category := "", counterparty := "自己",
    accountCell := "", product := "转账2", inOut := "不计收支", amountCell := "60",
    payMethod := "", status := "", tradeId := "T3", merchantId := "M3", note := "" }

/-- Concrete pre-import store for the C6 counterexample. -/
def storeC6 : Store := ⟨[], 0, 1⟩

/-- C6 counterexample.  Two inputs that differ only in how many neutral
rows they contain produce byte-identical import outcomes — including the
toast report — so the report does not state how many rows were skipped. -/
theorem skipped_count_not_reported_counterexample :
    alipayDialogImport respOk "2024-09-01" [recC6income, recC6neutral1] storeC6 =
      alipayDialogImport respOk "2024-09-01"
        [recC6income, recC6neutral1, recC6neutral2] storeC6 ∧
    ([recC6income, recC6neutral1].filter
        (fun rec => decide (alipayTxKind rec.inOut = TxKind.transfer))).length ≠
      ([recC6income, recC6neutral1, recC6neutral2].filter
        (fun rec => decide (alipayTxKind rec.inOut = TxKind.transfer))).length := by
  refine ⟨by decide, by decide⟩

/-- The fingerprint format the claim asserts (from the spec's words):
timestamp digits, then the signed amount rendered to exactly two decimal
places, then the running balance at two decimal places when supplied. -/
def claimedCurrentFp (tsDigits : String) (signed : Money) (bal : Option Money) : String :=
  tsDigits ++ moneyToFixed2 signed ++
    (match bal with
     | some b => moneyToFixed2 b
     | none => "")

/-- A ten-yuan Alipay income record for the C4 counterexample. -/
def recC4 : AlipayRecordRaw :=
  { time := "2024-01-02 03:04:05", category := "", counterparty := "店A",
    accountCell := "", product := "午餐", inOut := "收入", amountCell := "10",
    payMethod := "", status := "", tradeId := "T1", merchantId := "M1", note := "" }

/-- C4 counterexample.  The Alipay path stores
`20240102030405` + `10` (loose rendering, trailing `.00` stripped), not
the claimed `20240102030405` + `10.00`. -/
theorem fingerprint_2dp_counterexample :
    ((alipayToInsert "2024-09-01" [recC4]).map (fun r => r.uniqueHash)) =
      ["2024010203040510"] ∧
    "2024010203040510" ≠
      claimedCurrentFp (toTsKey "2024-01-02 03:04:05") 10000000 none := by
  refine ⟨by decide, by decide⟩

theorem alipayToInsertGo_fp (today : String) (recs : List AlipayRecordRaw) :
    ∀ uniq r, r ∈ alipayToInsertGo today recs uniq →
      ∃ rec ∈ recs, r.uniqueHash = alipayStoredFp today rec := by
  induction recs with
  | nil => intro uniq r hr; cases hr
  | cons rec rest ih =>
    intro uniq r hr
    unfold alipayToInsertGo at hr
    by_cases ht : alipayTxKind rec.inOut = TxKind.transfer
    · rw [if_pos ht] at hr
      obtain ⟨rec2, hmem, hfp⟩ := ih uniq r hr
      exact ⟨rec2, List.mem_cons_of_mem _ hmem, hfp⟩
    · rw [if_neg ht] at hr
      by_cases hc : uniq.contains (alipayStoredFp today rec) = true
      · rw [if_pos hc] at hr
        obtain ⟨rec2, hmem, hfp⟩ := ih uniq r hr
        exact ⟨rec2, List.mem_cons_of_mem _ hmem, hfp⟩
      · rw [if_neg hc] at hr
        rcases List.mem_cons.mp hr with h1 | h1
        · exact ⟨rec, List.mem_cons_self _ _, by rw [h1]⟩
        · obtain ⟨rec2, hmem, hfp⟩ := ih _ r h1
          exact ⟨rec2, List.mem_cons_of_mem _ hmem, hfp⟩

theorem bocToInsertGo_fp (recs : List BocRecordRaw) :
    ∀ uniq r, r ∈ bocToInsertGo recs uniq →
      ∃ rec ∈ recs, r.uniqueHash = bocStoredFp rec := by
  induction recs with
  | nil => intro uniq r hr; cases hr
  | cons rec rest ih =>
    intro uniq r hr
    unfold bocToInsertGo at hr
    by_cases hz : (bocAmountKind rec).1 = 0
    · simp only [hz, if_pos rfl] at hr
      obtain ⟨rec2, hmem, hfp⟩ := ih uniq r hr
      exact ⟨rec2, List.mem_cons_of_mem _ hmem, hfp⟩
    · simp only [if_neg hz] at hr
      by_cases hc : uniq.contains (bocStoredFp rec) = true
      · rw [if_pos hc] at hr
        obtain ⟨rec2, hmem, hfp⟩ := ih uniq r hr
        exact ⟨rec2, List.mem_cons_of_mem _ hmem, hfp⟩
      · rw [if_neg hc] at hr
        rcases List.mem_cons.mp hr with h1 | h1
        · exact ⟨rec, List.mem_cons_self _ _, by rw [h1]⟩
        · obtain ⟨rec2, hmem, hfp⟩ := ih _ r h1
          exact ⟨rec2, List.mem_cons_of_mem _ hmem, hfp⟩

/-- C4 amended.  Every committed record's stored fingerprint has the
provider's actual format: the Alipay path stores timestamp-digits plus
the loosely rendered signed amount (no balance part, trailing `.00`/`0`
stripped); the BOC path stores date-digits + signed-amount-2dp +
running-balance-2dp when the balance cell is present, falling back to
the legacy `date|cents|description` string when it is absent. -/
theorem stored_fingerprint_formats (today : String) (arecs : List AlipayRecordRaw)
    (brecs : List BocRecordRaw) (ra rb : InsRow)
    (ha : ra ∈ alipayToInsert today arecs) (hb : rb ∈ bocToInsert brecs) :
    (∃ rec ∈ arecs, ra.uniqueHash = alipayStoredFp today rec) ∧
    (∃ rec ∈ brecs, rb.uniqueHash = bocStoredFp rec) :=
  ⟨alipayToInsertGo_fp today arecs [] ra ha, bocToInsertGo_fp brecs [] rb hb⟩

/-- Witness for `stored_fingerprint_formats` at concrete records. -/
theorem stored_fingerprint_formats_witness :
    (∃ rec ∈ [recC4], ((alipayToInsert "2024-09-01" [recC4]).headD rowC2).uniqueHash =
      alipayStoredFp "2024-09-01" rec) ∧
    (∃ rec ∈ [recC5boc], rowC5boc.uniqueHash = bocStoredFp rec) :=
  stored_fingerprint_formats "2024-09-01" [recC4] [recC5boc]
    ((alipayToInsert "2024-09-01" [recC4]).headD rowC2) rowC5boc
    (by decide) (by decide)

/-! ## C7: nearest-x column assignment -/

theorem getD_set_self (l : List String) (n : Nat) (v : String) (h : n < l.length) :
    (l.set n v).getD n "" = v := by
  simp [List.getD, List.getElem?_set_self', List.getElem?_eq_getElem, h]

theorem getD_set_ne (l : List String) (n m : Nat) (v : String) (h : n ≠ m) :
    (l.set n v).getD m "" = l.getD m "" := by
  simp [List.getD, List.getElem?_set_ne h]

theorem nearestColumnGo_spec (x : Coord) :
    ∀ (l p : List Coord) (b : ℤ) (idx : Nat),
      idx < p.length →
      b = |x - p.getD idx 0| →
      (∀ j, j < p.length → b ≤ |x - p.getD j 0|) →
      (∀ j, j < idx → b < |x - p.getD j 0|) →
      nearestColumnGo x l (some b) idx p.length < (p ++ l).length ∧
      |x - (p ++ l).getD (nearestColumnGo x l (some b) idx p.length) 0| ≤ b ∧
      (∀ j, j < (p ++ l).length →
        |x - (p ++ l).getD (nearestColumnGo x l (some b) idx p.length) 0| ≤
          |x - (p ++ l).getD j 0|) ∧
      (∀ j, j < nearestColumnGo x l (some b) idx p.length →
        |x - (p ++ l).getD (nearestColumnGo x l (some b) idx p.length) 0| <
          |x - (p ++ l).getD j 0|) := by
  intro l
  induction l with
  | nil =>
    intro p b idx hidx hb hmin hstrict
    simp only [nearestColumnGo, List.append_nil]
    have hbd : |x - p.getD idx 0| ≤ b := le_of_eq hb.symm
    exact ⟨hidx, hbd, fun j hj => hb ▸ hmin j hj,
      fun j hj => lt_of_lt_of_le (hb ▸ hstrict j hj) (le_refl _)⟩
  | cons cx rest ih =>
    intro p b idx hidx hb hmin hstrict
    show (nearestColumnGo x (cx :: rest) (some b) idx p.length < (p ++ cx :: rest).length ∧ _)
    rw [nearestColumnGo]
    have happ : p ++ cx :: rest = (p ++ [cx]) ++ rest := by simp
    by_cases hd : |x - cx| < b
    · rw [if_pos hd]
      have hlen : p.length + 1 = (p ++ [cx]).length := by simp
      have hcx : (p ++ [cx]).getD p.length 0 = cx := by
        rw [List.getD_append_right _ _ _ _ (le_refl _)]
        simp
      have h1 : p.length < (p ++ [cx]).length := by simp
      have h2 : |x - cx| = |x - (p ++ [cx]).getD p.length 0| := by rw [hcx]
      have h3 : ∀ j, j < (p ++ [cx]).length → |x - cx| ≤ |x - (p ++ [cx]).getD j 0| := by
        intro j hj
        rcases Nat.lt_or_ge j p.length with hj2 | hj2
        · rw [List.getD_append _ _ _ _ hj2]
          exact le_of_lt (lt_of_lt_of_le hd (hmin j hj2))
        · have hl1 : (p ++ [cx]).length = p.length + 1 := by simp
          have : j = p.length := by omega
          rw [this, hcx]
      have h4 : ∀ j, j < p.length → |x - cx| < |x - (p ++ [cx]).getD j 0| := by
        intro j hj
        rw [List.getD_append _ _ _ _ hj]
        exact lt_of_lt_of_le hd (hmin j hj)
      have := ih (p ++ [cx]) |x - cx| p.length h1 h2 h3 h4
      rw [← happ] at this
      rw [hlen]
      refine ⟨this.1, le_trans this.2.1 (le_of_lt hd), this.2.2.1, this.2.2.2⟩
    · rw [if_neg hd]
      have hidx1 : idx < (p ++ [cx]).length := by
        simp only [List.length_append, List.length_cons, List.length_nil]
        omega
      have hb1 : b = |x - (p ++ [cx]).getD idx 0| := by
        rw [List.getD_append _ _ _ _ hidx]
        exact hb
      have h3 : ∀ j, j < (p ++ [cx]).length → b ≤ |x - (p ++ [cx]).getD j 0| := by
        intro j hj
        rcases Nat.lt_or_ge j p.length with hj2 | hj2
        · rw [List.getD_append _ _ _ _ hj2]
          exact hmin j hj2
        · have hl1 : (p ++ [cx]).length = p.length + 1 := by simp
          have : j = p.length := by omega
          subst this
          rw [List.getD_append_right _ _ _ _ (le_refl _)]
          simpa using not_lt.mp hd
      have h4 : ∀ j, j < idx → b < |x - (p ++ [cx]).getD j 0| := by
        intro j hj
        rw [List.getD_append _ _ _ _ (lt_trans hj hidx)]
        exact hstrict j hj
      have hlen : p.length + 1 = (p ++ [cx]).length := by simp
      have := ih (p ++ [cx]) b idx hidx1 hb1 h3 h4
      rw [← happ] at this
      rw [hlen]
      exact ⟨this.1, this.2.1, this.2.2.1, this.2.2.2⟩

theorem nearestColumnIdx_spec (colXs : List Coord) (x : Coord) (h : colXs ≠ []) :
    nearestColumnIdx colXs x < colXs.length ∧
    (∀ j, j < colXs.length →
      |x - colXs.getD (nearestColumnIdx colXs x) 0| ≤ |x - colXs.getD j 0|) ∧
    (∀ j, j < nearestColumnIdx colXs x →
      |x - colXs.getD (nearestColumnIdx colXs x) 0| < |x - colXs.getD j 0|) := by
  cases colXs with
  | nil => exact absurd rfl h
  | cons cx rest =>
    have h0 : nearestColumnIdx (cx :: rest) x =
        nearestColumnGo x rest (some |x - cx|) 0 [cx].length := rfl
    have hs := nearestColumnGo_spec x rest [cx] |x - cx| 0 (by simp) (by simp)
      (fun j hj => by
        have : j = 0 := by simpa using hj
        subst this; simp)
      (fun j hj => absurd hj (Nat.not_lt_zero j))
    simp only [List.singleton_append] at hs
    rw [h0]
    exact ⟨hs.1, hs.2.2.1, hs.2.2.2⟩

/-- Incremental cell filling (`joinInto c ts` folds `ts` into a cell that
already holds `c`). -/
def joinInto (c : String) (ts : List String) : String := ts.foldl joinCell c

theorem append_space_ne_empty (a b : String) : a ++ " " ++ b ≠ "" := by
  intro hh
  have := congrArg String.data hh
  simp at this

theorem joinInto_ne_empty_eq (ts : List String) :
    ∀ c, c ≠ "" → joinInto c ts = ts.foldl (fun a u => a ++ " " ++ u) c := by
  induction ts with
  | nil => intro c _; rfl
  | cons t ts ih =>
    intro c hc
    show joinInto (joinCell c t) ts = List.foldl _ (c ++ " " ++ t) ts
    rw [joinCell, if_neg hc]
    exact ih _ (append_space_ne_empty c t)

theorem joinInto_empty_eq_spaceJoin (ts : List String) (h : ∀ t ∈ ts, t ≠ "") :
    joinInto "" ts = spaceJoin ts := by
  cases ts with
  | nil => rfl
  | cons t ts =>
    have ht : t ≠ "" := h t (List.mem_cons_self _ _)
    show joinInto (joinCell "" t) ts = spaceJoin (t :: ts)
    rw [joinCell, if_pos rfl]
    exact joinInto_ne_empty_eq ts t ht

theorem assignCells_foldl (colXs : List Coord) (ps : List Pt) :
    ∀ (cells : List String) (j : Nat), j < cells.length →
      (ps.foldl (fun cells p =>
        addToCell cells (nearestColumnIdx colXs p.x) p.text) cells).getD j "" =
      joinInto (cells.getD j "")
        ((ps.filter (fun p => decide (nearestColumnIdx colXs p.x = j))).map
          (fun p => p.text)) := by
  induction ps with
  | nil => intro cells j _; rfl
  | cons p ps ih =>
    intro cells j hj
    rw [List.foldl_cons, List.filter_cons]
    have hlen : (addToCell cells (nearestColumnIdx colXs p.x) p.text).length =
        cells.length := by
      simp [addToCell]
    by_cases hp : nearestColumnIdx colXs p.x = j
    · rw [if_pos (by simpa using hp)]
      rw [List.map_cons]
      rw [ih _ j (by rw [hlen]; exact hj)]
      show joinInto _ _ = joinInto (joinCell (cells.getD j "") p.text) _
      congr 1
      rw [addToCell, hp]
      exact getD_set_self cells j _ hj
    · rw [if_neg (by simpa using hp)]
      rw [ih _ j (by rw [hlen]; exact hj)]
      congr 1
      rw [addToCell]
      exact getD_set_ne cells _ j _ hp

/-- C7.  Nearest-x column assignment: within a row cluster each glyph
goes to the column whose reference x minimizes the absolute distance
(the first such column on ties), and glyphs landing in the same cell are
concatenated space-joined in x-order. -/
theorem nearest_column_assignment (colXs : List Coord) (ps : List Pt) (x : Coord)
    (hcols : colXs ≠ []) (htext : ∀ p ∈ ps, p.text ≠ "") :
    (nearestColumnIdx colXs x < colXs.length ∧
     (∀ j, j < colXs.length →
       |x - colXs.getD (nearestColumnIdx colXs x) 0| ≤ |x - colXs.getD j 0|) ∧
     (∀ j, j < nearestColumnIdx colXs x →
       |x - colXs.getD (nearestColumnIdx colXs x) 0| < |x - colXs.getD j 0|)) ∧
    ∀ j, j < colXs.length →
      (assignCells colXs ps).getD j "" =
        spaceJoin ((ps.filter (fun p =>
          decide (nearestColumnIdx colXs p.x = j))).map (fun p => p.text)) := by
  constructor
  · exact nearestColumnIdx_spec colXs x hcols
  · intro j hj
    unfold assignCells
    rw [assignCells_foldl colXs ps (List.replicate colXs.length "") j (by simpa using hj)]
    have hrep : (List.replicate colXs.length "").getD j "" = "" := by
      simp [List.getD, List.getElem?_replicate, hj]
    rw [hrep]
    refine joinInto_empty_eq_spaceJoin _ (fun t htm => ?_)
    obtain ⟨p, hp, hpt⟩ := List.mem_map.mp htm
    exact hpt ▸ htext p (List.mem_filter.mp hp).1

/-- Column anchors of the C7 witness scenario (amount column at x=300). -/
def colsC7 : List Coord :=
  [36 * coordScale, 156 * coordScale, 234 * coordScale, 300 * coordScale]

/-- A data glyph at x=298 in the C7 witness scenario. -/
def ptsC7 : List Pt := [⟨298 * coordScale, 680 * coordScale, "45.00"⟩]

/-- Witness for `nearest_column_assignment`: the glyph at x=298 is
assigned to the amount column anchored at x=300 (index 3), every other
anchor being farther away, and its text lands in that cell. -/
theorem nearest_column_assignment_witness :
    ((nearestColumnIdx colsC7 (298 * coordScale) < colsC7.length ∧
      (∀ j, j < colsC7.length →
        |298 * coordScale - colsC7.getD (nearestColumnIdx colsC7 (298 * coordScale)) 0| ≤
          |298 * coordScale - colsC7.getD j 0|) ∧
      (∀ j, j < nearestColumnIdx colsC7 (298 * coordScale) →
        |298 * coordScale - colsC7.getD (nearestColumnIdx colsC7 (298 * coordScale)) 0| <
          |298 * coordScale - colsC7.getD j 0|)) ∧
     ∀ j, j < colsC7.length →
       (assignCells colsC7 ptsC7).getD j "" =
         spaceJoin ((ptsC7.filter (fun p =>
           decide (nearestColumnIdx colsC7 p.x = j))).map (fun p => p.text))) ∧
    nearestColumnIdx colsC7 (298 * coordScale) = 3 ∧
    assignCells colsC7 ptsC7 = ["", "", "", "45.00"] :=
  ⟨nearest_column_assignment colsC7 ptsC7 (298 * coordScale) (by decide) (by decide),
   by decide, by decide⟩

/-! ## C8: encoding detection -/

/-- A decoder whose every decoding succeeds but never contains an anchor. -/
def tryDecNoAnchor : String → Option String := fun _ => some "hello"

/-- C8 counterexample.  When no candidate decoding contains an anchor,
`decodeBestEffort` does not fail with a decode error: it silently falls
back and returns the anchor-free UTF-8 decoding. -/
theorem decode_fallback_counterexample :
    decodeBestEffort tryDecNoAnchor = "hello" ∧
    anchorAccepts (some "hello") = false := by
  refine ⟨by decide, by decide⟩

theorem anchorAccepts_exists_some (o : Option String)
    (h : anchorAccepts o = true) : ∃ t, o = some t := by
  cases o with
  | none => simp [anchorAccepts] at h
  | some t => exact ⟨t, rfl⟩

theorem decodeLoop_first_match (tryDec : String → Option String) :
    ∀ (cands : List String) (i : Nat), i < cands.length →
      anchorAccepts (tryDec (cands.getD i "")) = true →
      (∀ j, j < i → anchorAccepts (tryDec (cands.getD j "")) = false) →
      decodeLoop tryDec cands = tryDec (cands.getD i "") := by
  intro cands
  induction cands with
  | nil => intro i hi; exact absurd hi (Nat.not_lt_zero i)
  | cons e rest ih =>
    intro i hi hacc hbefore
    cases i with
    | zero =>
      show (if anchorAccepts (tryDec e) = true then tryDec e
            else decodeLoop tryDec rest) = tryDec ((e :: rest).getD 0 "")
      rw [if_pos (by simpa using hacc)]
      rfl
    | succ i =>
      have h0 : anchorAccepts (tryDec e) = false := by
        simpa using hbefore 0 (Nat.succ_pos i)
      show (if anchorAccepts (tryDec e) = true then tryDec e
            else decodeLoop tryDec rest) = tryDec ((e :: rest).getD (i + 1) "")
      rw [if_neg (by simp [h0])]
      have hgd : (e :: rest).getD (i + 1) "" = rest.getD i "" := rfl
      rw [hgd]
      exact ih i (by simpa using hi) (by simpa [hgd] using hacc)
        (fun j hj => by simpa using hbefore (j + 1) (by omega))

/-- C8 amended.  `decodeBestEffort` tries GB18030, GBK, GB2312, UTF-8 in
priority order and accepts the first candidate whose decoding contains
an anchor (`支付宝` or `交易时间`): if the candidate at position `i` is
anchor-accepted and every earlier candidate is not, the result is that
candidate's decoded text; when no candidate matches, it returns the
UTF-8 decoding (the empty string when even that fails) instead of
failing with a `DecodeError`. -/
theorem decode_priority_and_fallback (tryDec : String → Option String) :
    (∀ i, i < decodeCandidates.length →
      anchorAccepts (tryDec (decodeCandidates.getD i "")) = true →
      (∀ j, j < i → anchorAccepts (tryDec (decodeCandidates.getD j "")) = false) →
      decodeBestEffort tryDec = (tryDec (decodeCandidates.getD i "")).getD "") ∧
    ((∀ enc ∈ decodeCandidates, anchorAccepts (tryDec enc) = false) →
      decodeBestEffort tryDec = (tryDec "utf-8").getD "") := by
  constructor
  · intro i hi hacc hbefore
    have hloop := decodeLoop_first_match tryDec decodeCandidates i hi hacc hbefore
    obtain ⟨t, ht⟩ := anchorAccepts_exists_some _ hacc
    unfold decodeBestEffort
    rw [hloop, ht]
    rfl
  · intro hall
    have h1 := hall "gb18030" (by decide)
    have h2 := hall "gbk" (by decide)
    have h3 := hall "gb2312" (by decide)
    have h4 := hall "utf-8" (by decide)
    unfold decodeBestEffort decodeCandidates
    simp [decodeLoop, h1, h2, h3, h4]

/-- A decoder where only GB18030 succeeds, with an anchor. -/
def tryDecGb : String → Option String :=
  fun e => if e = "gb18030" then some "支付宝账单" else none

/-- A decoder where GB18030 decodes without an anchor and only GBK (the
second candidate) contains one. -/
def tryDecGbk : String → Option String :=
  fun e =>
    if e = "gb18030" then some "mojibake"
    else if e = "gbk" then some "交易时间,交易分类" else none

/-- Witness for `decode_priority_and_fallback` at concrete decoders:
a first-candidate match, a second-candidate (GBK) match after a
non-matching GB18030 decode, and the anchorless fallback. -/
theorem decode_priority_and_fallback_witness :
    decodeBestEffort tryDecGb = "支付宝账单" ∧
    decodeBestEffort tryDecGbk = "交易时间,交易分类" ∧
    decodeBestEffort tryDecNoAnchor = (tryDecNoAnchor "utf-8").getD "" :=
  ⟨(decode_priority_and_fallback tryDecGb).1 0 (by decide) (by decide)
      (fun j hj => absurd hj (Nat.not_lt_zero j)),
   (decode_priority_and_fallback tryDecGbk).1 1 (by decide) (by decide)
      (fun j hj => by
        have hj0 : j = 0 := by omega
        subst hj0
        decide),
   (decode_priority_and_fallback tryDecNoAnchor).2 (by decide)⟩

/-! ## C9: password errors are distinct -/

/-- C9.  A failed rendering session — in particular a wrong or missing
password, which pdf.js rejects with its `PasswordException` before any
text is extracted — propagates out of `parseBocPdf` as the distinct
auth failure, which is not equal to either header error; conversely a
session that opens never produces the auth failure, only header errors
or a parse result. -/
theorem auth_error_distinct :
    parseBocPdf (Except.error PdfOpenError.auth) =
      Except.error (BocParseError.openFailed PdfOpenError.auth) ∧
    (∀ pts, parseBocPdf (Except.ok pts) ≠
      Except.error (BocParseError.openFailed PdfOpenError.auth)) ∧
    BocParseError.openFailed PdfOpenError.auth ≠ BocParseError.dateHeaderMissing ∧
    BocParseError.openFailed PdfOpenError.auth ≠ BocParseError.noValidHeader := by
  refine ⟨rfl, ?_, by decide, by decide⟩
  intro pts h
  have h2 : parseBocPts pts =
      Except.error (BocParseError.openFailed PdfOpenError.auth) := h
  unfold parseBocPts at h2
  dsimp only at h2
  split at h2
  · simp at h2
  · split at h2
    · simp at h2
    · simp at h2
